import Mathlib

/-!
Signal / observer core of `ObserverPatternImplementation.cpp`.

A shallow embedding of the publish/subscribe core: the endpoint classes
`Signal_` and `SignalObserver_`, the registry `SignalTracker`, the typed
handles `Signal` and `SignalObserver`, and the application classes `B` and `P`
of the demonstration program.

Modelling conventions.

* Every `Signal_` and every `SignalObserver_` ever allocated has a cell in the
  world, at the index that serves as its address (the identity of its control
  block).  A `std::weak_ptr` is such an address; it is expired when the cell is
  no longer alive.  The one strong owner of an endpoint is the handle that
  minted it, so an endpoint dies exactly when its handle is destroyed or reset.
* `std::set<weak_ptr, owner_less>` is a list kept in strictly increasing owner
  order; two references are equivalent when neither is owner-less than the
  other.
* `std::unordered_map<std::string, weak_ptr>` is an association list.
* The signature `TArgs...` is fixed to one `int`, as in `main`.  A
  `std::function` is `none` when empty and `some k` when it holds the target
  `k`; calling it appends one record to the world's call log.  Callables do not
  themselves change endpoints or registries.
* `assert` is enabled: a failed assertion stops the call with `assertFailed`,
  `unordered_map::at` on a missing key with `outOfRange`, calling an empty
  `std::function` with `badFunctionCall`.  Every operation returns the world as
  it is when the call ends.
-/

namespace ObserverPattern

/-- Address of an endpoint: the identity shared by every `shared_ptr` and
`weak_ptr` that refers to it. -/
abbrev Addr := Nat

/-- A `std::function<void(int)>`: `none` is the empty function. -/
abbrev Callback := Option Nat

/-- How a call ends. -/
inductive Outcome where
  | ok
  | outOfRange
  | assertFailed
  | badFunctionCall
  | invalidThis
  deriving DecidableEq, Repr

/-- One invocation of a stored callable. -/
structure Call where
  observer : Addr
  target : Nat
  arg : Int
  deriving DecidableEq, Repr

/-- Class `SignalObserver_`, with the liveness bit of its control block. -/
structure SignalObserver_ where
  alive : Bool
  mStoredFunction : Callback
  deriving DecidableEq, Repr

/-- Class `Signal_`, with the liveness bit of its control block. -/
structure Signal_ where
  alive : Bool
  mObservers : List Addr
  deriving DecidableEq, Repr

/-- Class `SignalTracker`: the two name-keyed maps of weak references. -/
structure SignalTracker where
  mObservers : List (String × Addr)
  mSignals : List (String × Addr)
  deriving DecidableEq, Repr

/-- The program state: both heaps, every registry, and the call log. -/
structure World where
  signals : List Signal_
  observers : List SignalObserver_
  trackers : List SignalTracker
  log : List Call
  deriving DecidableEq, Repr

/-- The state before anything is constructed. -/
def World.empty : World := ⟨[], [], [], []⟩

/-! ## `std::set` with `std::owner_less` -/

/-- The `insert` member of the set: nothing happens when an equivalent element is present. -/
def setInsert (x : Addr) : List Addr → List Addr
  | [] => [x]
  | y :: ys =>
    if x < y then x :: y :: ys
    else if y < x then y :: setInsert x ys
    else y :: ys

/-- The `erase` member of the set: drops the element equivalent to `x`. -/
def setErase (x : Addr) (s : List Addr) : List Addr :=
  s.filter (fun y => x < y || y < x)

/-! ## `std::unordered_map` -/

/-- The `at` member of the map: `none` stands for the thrown `std::out_of_range`. -/
def mapAt (k : String) : List (String × Addr) → Option Addr
  | [] => none
  | (k', v) :: m => if k' = k then some v else mapAt k m

/-- The `insert` member of the map: nothing happens when the key is present. -/
def mapInsert (k : String) (v : Addr) (m : List (String × Addr)) : List (String × Addr) :=
  match mapAt k m with
  | some _ => m
  | none => m ++ [(k, v)]

/-- The `erase` member of the map, by key. -/
def mapErase (k : String) (m : List (String × Addr)) : List (String × Addr) :=
  m.filter (fun p => p.1 ≠ k)

/-! ## Weak references -/

/-- Method `expired` of a `weak_ptr<SignalObserver_>`. -/
def World.observerExpired (w : World) (a : Addr) : Bool :=
  match w.observers[a]? with
  | some c => !c.alive
  | none => true

/-- Method `expired` of a `weak_ptr<Signal_>`. -/
def World.signalExpired (w : World) (a : Addr) : Bool :=
  match w.signals[a]? with
  | some c => !c.alive
  | none => true

/-- Method `lock` of a `weak_ptr<SignalObserver_>`: the object, when it is still alive. -/
def World.lockObserver (w : World) (a : Addr) : Option SignalObserver_ :=
  match w.observers[a]? with
  | some c => if c.alive then some c else none
  | none => none

/-- The registry with identity `t`; an identity that names no registry reads as one with
two empty maps. -/
def World.tracker (w : World) (t : Nat) : SignalTracker :=
  w.trackers.getD t ⟨[], []⟩

/-- The observer set of the `Signal_` at `sig`. -/
def World.observersOf (w : World) (sig : Addr) : List Addr :=
  match w.signals[sig]? with
  | some s => s.mObservers
  | none => []

/-- Assigns the observer set of the `Signal_` at `sig`. -/
def World.setObserversOf (w : World) (sig : Addr) (obs : List Addr) : World :=
  { w with signals := w.signals.modify (fun s => { s with mObservers := obs }) sig }

/-- Releases the last strong reference to the `Signal_` at `a`. -/
def World.destroySignal (w : World) (a : Addr) : World :=
  { w with signals := w.signals.modify (fun s => { s with alive := false }) a }

/-- Releases the last strong reference to the `SignalObserver_` at `a`. -/
def World.destroyObserver (w : World) (a : Addr) : World :=
  { w with observers := w.observers.modify (fun c => { c with alive := false }) a }

/-! ## `SignalTracker::garbageCollection` -/

/-- The first loops of `garbageCollection`: the keys whose reference is expired. -/
def expiredKeys (isExpired : Addr → Bool) (m : List (String × Addr)) : List String :=
  (m.filter (fun p => isExpired p.2)).map Prod.fst

/-- The last loops of `garbageCollection`: erase each collected key. -/
def eraseKeys (ks : List String) (m : List (String × Addr)) : List (String × Addr) :=
  ks.foldl (fun acc k => mapErase k acc) m

/-- Function `SignalTracker::garbageCollection` on the registry `t`. -/
def garbageCollection (t : Nat) (w : World) : World :=
  let tr := w.tracker t
  let signalsToErase := expiredKeys w.signalExpired tr.mSignals
  let observersToErase := expiredKeys w.observerExpired tr.mObservers
  let swept : SignalTracker :=
    { mSignals := eraseKeys signalsToErase tr.mSignals
      mObservers := eraseKeys observersToErase tr.mObservers }
  { w with trackers := w.trackers.set t swept }

/-! ## `Signal_` -/

/-- Function `Signal_::registerObserver`, called on the live `Signal_` at `sig`. -/
def Signal_.registerObserver (sig : Addr) (observer : Addr) (w : World) : Outcome × World :=
  if w.observerExpired observer then (Outcome.assertFailed, w)
  else (Outcome.ok, w.setObserversOf sig (setInsert observer (w.observersOf sig)))

/-- The first loop of `Signal_::emit`: call every observer that locks, collect the others.
An empty stored function throws and ends the loop. -/
def emitLoop (w : World) (x : Int) :
    List Addr → List Call → List Addr → Outcome × List Call × List Addr
  | [], calls, expiredObservers => (Outcome.ok, calls, expiredObservers)
  | observer :: rest, calls, expiredObservers =>
    match w.lockObserver observer with
    | some activeObserver =>
      match activeObserver.mStoredFunction with
      | some f => emitLoop w x rest (calls ++ [⟨observer, f, x⟩]) expiredObservers
      | none => (Outcome.badFunctionCall, calls, expiredObservers)
    | none => emitLoop w x rest calls (expiredObservers ++ [observer])

/-- The second loop of `Signal_::emit`: erase each collected reference. -/
def eraseObservers (expiredObservers : List Addr) (s : List Addr) : List Addr :=
  expiredObservers.foldl (fun acc e => setErase e acc) s

/-- Function `Signal_::emit`, called on the live `Signal_` at `sig`. -/
def Signal_.emit (sig : Addr) (x : Int) (w : World) : Outcome × World :=
  match emitLoop w x (w.observersOf sig) [] [] with
  | (Outcome.ok, calls, expiredObservers) =>
    (Outcome.ok,
      World.setObserversOf { w with log := w.log ++ calls } sig
        (eraseObservers expiredObservers (w.observersOf sig)))
  | (out, calls, _) => (out, { w with log := w.log ++ calls })

/-! ## `SignalTracker` -/

/-- Function `SignalTracker::declareSignal` on the registry `t`. -/
def declareSignal (t : Nat) (name : String) (w : World) : Addr × World :=
  let newSignal := w.signals.length
  let tr := w.tracker t
  let declared : SignalTracker := { tr with mSignals := mapInsert name newSignal tr.mSignals }
  let w1 : World :=
    { w with
      signals := w.signals ++ [⟨true, []⟩]
      trackers := w.trackers.set t declared }
  (newSignal, garbageCollection t w1)

/-- Function `SignalTracker::declareSignalObserver` on the registry `t`. -/
def declareSignalObserver (t : Nat) (name : String) (callback : Callback) (w : World) :
    Addr × World :=
  let newObserver := w.observers.length
  let tr := w.tracker t
  let declared : SignalTracker :=
    { tr with mObservers := mapInsert name newObserver tr.mObservers }
  let w1 : World :=
    { w with
      observers := w.observers ++ [⟨true, callback⟩]
      trackers := w.trackers.set t declared }
  (newObserver, garbageCollection t w1)

/-- Function `SignalTracker::connect` on the registry `t`, with `other` the registry that
owns the signal. -/
def connect (t : Nat) (theirSignal ourObserver : String) (other : Nat) (w : World) :
    Outcome × World :=
  match mapAt theirSignal (w.tracker other).mSignals with
  | none => (Outcome.outOfRange, w)
  | some otherSignal =>
    if w.signalExpired otherSignal then (Outcome.assertFailed, w)
    else
      match mapAt ourObserver (w.tracker t).mObservers with
      | none => (Outcome.outOfRange, w)
      | some ourObserver =>
        if w.observerExpired ourObserver then (Outcome.assertFailed, w)
        else
          match Signal_.registerObserver otherSignal ourObserver w with
          | (Outcome.ok, w1) => (Outcome.ok, garbageCollection t w1)
          | r => r

/-- The default constructor of `SignalTracker`, also run by its copy and move constructors:
a new registry with two empty maps. -/
def newTracker (w : World) : Nat × World :=
  (w.trackers.length, { w with trackers := w.trackers ++ [⟨[], []⟩] })

/-! ## The handles `Signal` and `SignalObserver` -/

/-- Class `Signal`: the strong reference `mSignal_`, `none` while it is null. -/
structure Signal where
  mSignal_ : Option Addr
  deriving DecidableEq, Repr

/-- Class `SignalObserver`: the strong reference `mSignalObserver_`, `none` while it is null. -/
structure SignalObserver where
  mSignalObserver_ : Option Addr
  deriving DecidableEq, Repr

/-- Function `Signal::resetSignal`: the assignment releases the previous endpoint once the
new one is declared. -/
def Signal.resetSignal (self : Signal) (owningTracker : Nat) (name : String) (w : World) :
    Signal × World :=
  let r := declareSignal owningTracker name w
  match self.mSignal_ with
  | some old => (⟨some r.1⟩, r.2.destroySignal old)
  | none => (⟨some r.1⟩, r.2)

/-- The constructor `Signal(owningTracker, name)`. -/
def Signal.new (owningTracker : Nat) (name : String) (w : World) : Signal × World :=
  Signal.resetSignal ⟨none⟩ owningTracker name w

/-- Function `Signal::emit`. -/
def Signal.emit (self : Signal) (x : Int) (w : World) : Outcome × World :=
  match self.mSignal_ with
  | some sig => Signal_.emit sig x w
  | none => (Outcome.invalidThis, w)

/-- The destructor of `Signal`. -/
def Signal.destroy (self : Signal) (w : World) : World :=
  match self.mSignal_ with
  | some sig => w.destroySignal sig
  | none => w

/-- Function `SignalObserver::resetObserver`. -/
def SignalObserver.resetObserver (self : SignalObserver) (owningTracker : Nat) (name : String)
    (callback : Callback) (w : World) : Outcome × SignalObserver × World :=
  match callback with
  | none => (Outcome.assertFailed, self, w)
  | some f =>
    let r := declareSignalObserver owningTracker name (some f) w
    match self.mSignalObserver_ with
    | some old => (Outcome.ok, ⟨some r.1⟩, r.2.destroyObserver old)
    | none => (Outcome.ok, ⟨some r.1⟩, r.2)

/-- The constructor `SignalObserver(owningTracker, name, callback)`. -/
def SignalObserver.new (owningTracker : Nat) (name : String) (callback : Callback) (w : World) :
    Outcome × SignalObserver × World :=
  SignalObserver.resetObserver ⟨none⟩ owningTracker name callback w

/-- Function `Signal::registerObserver`. -/
def Signal.registerObserver (self : Signal) (observer : SignalObserver) (w : World) :
    Outcome × World :=
  match self.mSignal_ with
  | none => (Outcome.invalidThis, w)
  | some sig =>
    match observer.mSignalObserver_ with
    | none => (Outcome.assertFailed, w)
    | some o => Signal_.registerObserver sig o w

/-- Function `SignalObserver::connect`. -/
def SignalObserver.connect (self : SignalObserver) (signal : Signal) (w : World) :
    Outcome × World :=
  signal.registerObserver self w

/-- The destructor of `SignalObserver`. -/
def SignalObserver.destroy (self : SignalObserver) (w : World) : World :=
  match self.mSignalObserver_ with
  | some o => w.destroyObserver o
  | none => w

/-! ## The application classes `B` and `P` -/

/-- Class `B`: its `SignalTracker` base and its member `sigDidSomething`. -/
structure B where
  tracker : Nat
  sigDidSomething : Signal
  deriving DecidableEq, Repr

/-- The default constructor of `B`. -/
def B.new (w : World) : B × World :=
  let t := newTracker w
  let s := Signal.new t.1 "somethingDone" t.2
  (⟨t.1, s.1⟩, s.2)

/-- The copy constructor of `B`, which delegates to the default constructor. -/
def B.copy (_other : B) (w : World) : B × World :=
  B.new w

/-- Function `B::doSomething`, without its printing. -/
def B.doSomething (self : B) (thingToDo : Int) (w : World) : Outcome × World :=
  self.sigDidSomething.emit thingToDo w

/-- The destructor of `B`. -/
def B.destroy (self : B) (w : World) : World :=
  self.sigDidSomething.destroy w

/-- Class `P`: its `SignalTracker` base and its member `somethingDoneObserver`. -/
structure P where
  tracker : Nat
  somethingDoneObserver : SignalObserver
  deriving DecidableEq, Repr

/-- The default constructor of `P`.  The lambda that captures `this` is the callable whose
target is the object's own identity. -/
def P.new (w : World) : Outcome × P × World :=
  let t := newTracker w
  let o := SignalObserver.new t.1 "somethingDone" (some t.1) t.2
  (o.1, ⟨t.1, o.2.1⟩, o.2.2)

/-- The copy constructor of `P`, which delegates to the default constructor. -/
def P.copy (_other : P) (w : World) : Outcome × P × World :=
  P.new w

/-- The destructor of `P`. -/
def P.destroy (self : P) (w : World) : World :=
  self.somethingDoneObserver.destroy w

/-! ## Programs over the public interface -/

/-- One call of the public interface.  A handle is named by the endpoint it owns. -/
inductive Op where
  | newTracker
  | newSignal (t : Nat) (name : String)
  | resetSignal (h : Addr) (t : Nat) (name : String)
  | emit (h : Addr) (x : Int)
  | destroySignal (h : Addr)
  | newObserver (t : Nat) (name : String) (callback : Callback)
  | resetObserver (h : Addr) (t : Nat) (name : String) (callback : Callback)
  | connectDirect (o : Addr) (s : Addr)
  | destroyObserver (h : Addr)
  | connect (t : Nat) (theirSignal ourObserver : String) (other : Nat)
  deriving DecidableEq, Repr

/-- Runs one call.  A call on a registry or handle that does not exist is `invalidThis`. -/
def step (op : Op) (w : World) : Outcome × World :=
  match op with
  | Op.newTracker => (Outcome.ok, (newTracker w).2)
  | Op.newSignal t name =>
    if t < w.trackers.length then (Outcome.ok, (Signal.new t name w).2)
    else (Outcome.invalidThis, w)
  | Op.resetSignal h t name =>
    if t < w.trackers.length ∧ w.signalExpired h = false then
      (Outcome.ok, (Signal.resetSignal ⟨some h⟩ t name w).2)
    else (Outcome.invalidThis, w)
  | Op.emit h x =>
    if w.signalExpired h = false then Signal.emit ⟨some h⟩ x w
    else (Outcome.invalidThis, w)
  | Op.destroySignal h =>
    if w.signalExpired h = false then (Outcome.ok, Signal.destroy ⟨some h⟩ w)
    else (Outcome.invalidThis, w)
  | Op.newObserver t name callback =>
    if t < w.trackers.length then
      let r := SignalObserver.new t name callback w
      (r.1, r.2.2)
    else (Outcome.invalidThis, w)
  | Op.resetObserver h t name callback =>
    if t < w.trackers.length ∧ w.observerExpired h = false then
      let r := SignalObserver.resetObserver ⟨some h⟩ t name callback w
      (r.1, r.2.2)
    else (Outcome.invalidThis, w)
  | Op.connectDirect o s =>
    if w.observerExpired o = false ∧ w.signalExpired s = false then
      SignalObserver.connect ⟨some o⟩ ⟨some s⟩ w
    else (Outcome.invalidThis, w)
  | Op.destroyObserver h =>
    if w.observerExpired h = false then (Outcome.ok, SignalObserver.destroy ⟨some h⟩ w)
    else (Outcome.invalidThis, w)
  | Op.connect t theirSignal ourObserver other =>
    if t < w.trackers.length ∧ other < w.trackers.length then
      connect t theirSignal ourObserver other w
    else (Outcome.invalidThis, w)

/-- Runs a program, call after call.  A call that fails leaves the state in which it
ended, and the program goes on from there. -/
def run : List Op → World → World
  | [], w => w
  | op :: ops, w => run ops (step op w).2

/-- The states a program can reach from the empty state. -/
def Reachable (w : World) : Prop :=
  ∃ ops : List Op, run ops World.empty = w

/-- The calls with which `observer` was invoked. -/
def callsOf (observer : Addr) (calls : List Call) : List Call :=
  calls.filter (fun c => c.observer = observer)

/-- Emits each listed signal once, with its argument, in order. -/
def emitAll : List (Addr × Int) → World → World
  | [], w => w
  | (b, x) :: rest, w => emitAll rest (Signal_.emit b x w).2

/-- The entry of registry `R` under `n` in `mSignals` refers to a destroyed `Signal_`. -/
def DeadSignalEntry (w : World) (R : Nat) (n : String) : Prop :=
  ∃ (a : Addr) (c : Signal_),
    mapAt n (w.tracker R).mSignals = some a ∧ w.signals[a]? = some c ∧ c.alive = false

/-- The entry of registry `R` under `n` in `mObservers` refers to a destroyed
`SignalObserver_`. -/
def DeadObserverEntry (w : World) (R : Nat) (n : String) : Prop :=
  ∃ (a : Addr) (c : SignalObserver_),
    mapAt n (w.tracker R).mObservers = some a ∧ w.observers[a]? = some c ∧ c.alive = false

/-- The calls that one pass over `l` makes when no stored function is empty. -/
def liveCalls (w : World) (x : Int) (l : List Addr) : List Call :=
  l.filterMap (fun a =>
    match w.lockObserver a with
    | some c => c.mStoredFunction.map (fun f => Call.mk a f x)
    | none => none)

/-- The invariant of reachable states: observer sets are in strict owner order and hold
allocated addresses only, and no allocated `SignalObserver_` stores an empty function. -/
structure Inv (w : World) : Prop where
  sorted : ∀ sig, (w.observersOf sig).Pairwise (· < ·)
  bounded : ∀ (sig a : Addr), a ∈ w.observersOf sig → a < w.observers.length
  callable : ∀ (a : Addr) (c : SignalObserver_),
    w.observers[a]? = some c → c.mStoredFunction ≠ none

/-- The invariant of reachable states on the registries: no map holds a key twice. -/
structure UniqueKeys (w : World) : Prop where
  signals : ∀ t : Nat, ((w.tracker t).mSignals.map Prod.fst).Nodup
  observers : ∀ t : Nat, ((w.tracker t).mObservers.map Prod.fst).Nodup

/-- What `garbageCollection` makes of one map: its two loops, one after the other. -/
def sweep (isExpired : Addr → Bool) (m : List (String × Addr)) : List (String × Addr) :=
  eraseKeys (expiredKeys isExpired m) m

/-! ## States used as examples -/

/-- A program in the shape of case 3 of `main`: one `B` and five `P`, each connected by name. -/
def fiveObservers : List Op :=
  [Op.newTracker, Op.newSignal 0 "somethingDone",
   Op.newTracker, Op.newObserver 1 "somethingDone" (some 1),
   Op.connect 1 "somethingDone" "somethingDone" 0,
   Op.newTracker, Op.newObserver 2 "somethingDone" (some 2),
   Op.connect 2 "somethingDone" "somethingDone" 0,
   Op.newTracker, Op.newObserver 3 "somethingDone" (some 3),
   Op.connect 3 "somethingDone" "somethingDone" 0,
   Op.newTracker, Op.newObserver 4 "somethingDone" (some 4),
   Op.connect 4 "somethingDone" "somethingDone" 0,
   Op.newTracker, Op.newObserver 5 "somethingDone" (some 5),
   Op.connect 5 "somethingDone" "somethingDone" 0]

/-- A program in the shape of case 1 of `main`: one `B` and one `P`, not yet connected. -/
def oneOfEach : List Op :=
  [Op.newTracker, Op.newSignal 0 "somethingDone",
   Op.newTracker, Op.newObserver 1 "somethingDone" (some 1)]

/-- One registry with a live `Signal_` and a live `SignalObserver_`, both under the name "n". -/
def liveEntries : World :=
  run [Op.newTracker, Op.newSignal 0 "n", Op.newObserver 0 "n" (some 7)] World.empty

/-- One registry whose entries under "n" refer to endpoints that have been destroyed. -/
def deadEntries : World :=
  run [Op.newTracker, Op.newSignal 0 "n", Op.newObserver 0 "n" (some 7),
       Op.destroySignal 0, Op.destroyObserver 0] World.empty

/-- Two `P`-like observers that store the same callable, and one signal; the first observer
is attached. -/
def twinObservers : List Op :=
  [Op.newTracker, Op.newSignal 0 "s", Op.newObserver 0 "p" (some 7),
   Op.newObserver 0 "q" (some 7), Op.connectDirect 0 0]

/-- A program in the shape of case 4 of `main`: one `P` connected by name to three `B`. -/
def threeSignals : List Op :=
  [Op.newTracker, Op.newObserver 0 "somethingDone" (some 0),
   Op.newTracker, Op.newSignal 1 "somethingDone",
   Op.connect 0 "somethingDone" "somethingDone" 1,
   Op.newTracker, Op.newSignal 2 "somethingDone",
   Op.connect 0 "somethingDone" "somethingDone" 2,
   Op.newTracker, Op.newSignal 3 "somethingDone",
   Op.connect 0 "somethingDone" "somethingDone" 3]

/-- Registry 0 holds a destroyed `Signal_` under "n" and a live one under "m"; registry 1
holds a live `SignalObserver_` under "o". -/
def staleOther : World :=
  run [Op.newTracker, Op.newSignal 0 "n", Op.newSignal 0 "m", Op.destroySignal 0,
       Op.newTracker, Op.newObserver 1 "o" (some 1)] World.empty

/-- A program in the shape of cases 5 and 6 of `main`: one `B` and one `P`, connected by
name. -/
def connectedPair : List Op :=
  [Op.newTracker, Op.newSignal 0 "somethingDone",
   Op.newTracker, Op.newObserver 1 "somethingDone" (some 1),
   Op.connect 1 "somethingDone" "somethingDone" 0]

/-- One registry and nothing else. -/
def loneRegistry : World :=
  run [Op.newTracker] World.empty

/-- The state of cases 1 and 2 of `main` after the `P` is destroyed: the signal's observer
set still holds the expired reference. -/
def staleObserver : List Op :=
  [Op.newTracker, Op.newSignal 0 "somethingDone",
   Op.newTracker, Op.newObserver 1 "somethingDone" (some 1),
   Op.connect 1 "somethingDone" "somethingDone" 0,
   Op.destroyObserver 0]

/-! ## Lemmas on the set -/

theorem mem_setInsert (x a : Nat) (l : List Nat) :
    a ∈ setInsert x l ↔ a = x ∨ a ∈ l := by
  induction l with
  | nil => simp [setInsert]
  | cons y ys ih =>
    unfold setInsert
    split_ifs with h1 h2
    · simp
    · simp [ih]; tauto
    · have : x = y := Nat.le_antisymm (Nat.not_lt.1 h2) (Nat.not_lt.1 h1)
      subst this; simp

theorem setInsert_sorted (x : Nat) (l : List Nat) (h : l.Pairwise (· < ·)) :
    (setInsert x l).Pairwise (· < ·) := by
  induction l with
  | nil => simp [setInsert]
  | cons y ys ih =>
    rw [List.pairwise_cons] at h
    unfold setInsert
    split_ifs with h1 h2
    · rw [List.pairwise_cons, List.pairwise_cons]
      refine ⟨?_, h.1, h.2⟩
      intro a ha
      rcases List.mem_cons.1 ha with rfl | ha
      · exact h1
      · exact lt_trans h1 (h.1 a ha)
    · rw [List.pairwise_cons]
      refine ⟨?_, ih h.2⟩
      intro a ha
      rcases (mem_setInsert x a ys).1 ha with rfl | ha
      · exact h2
      · exact h.1 a ha
    · rw [List.pairwise_cons]; exact h

theorem setInsert_of_mem (x : Nat) (l : List Nat) (h : l.Pairwise (· < ·)) (hx : x ∈ l) :
    setInsert x l = l := by
  induction l with
  | nil => simp at hx
  | cons y ys ih =>
    rw [List.pairwise_cons] at h
    unfold setInsert
    rcases List.mem_cons.1 hx with rfl | hx
    · simp
    · have hlt : y < x := h.1 x hx
      have h1 : ¬ x < y := Nat.lt_asymm hlt
      simp [h1, hlt, ih h.2 hx]

theorem setErase_eq_filter (x : Nat) (s : List Nat) :
    setErase x s = s.filter (fun y => decide (y ≠ x)) := by
  unfold setErase
  apply List.filter_congr
  intro y _
  by_cases h : y = x
  · subst h; simp
  · have : x < y ∨ y < x := Nat.lt_or_gt_of_ne (fun e => h e.symm)
    simp [h, this]

theorem eraseObservers_eq_filter (es s : List Addr) :
    eraseObservers es s = s.filter (fun y => decide (y ∉ es)) := by
  unfold eraseObservers
  induction es generalizing s with
  | nil => simp
  | cons e es ih =>
    rw [List.foldl_cons, ih, setErase_eq_filter, List.filter_filter]
    apply List.filter_congr
    intro y _
    simp [Bool.and_comm]

/-! ## Lemmas on weak references -/

theorem lockObserver_eq_none (w : World) (a : Addr) :
    w.lockObserver a = none ↔ w.observerExpired a = true := by
  unfold World.lockObserver World.observerExpired
  cases w.observers[a]? with
  | none => simp
  | some c => cases h : c.alive <;> simp [h]

theorem lockObserver_eq_some (w : World) (a : Addr) (c : SignalObserver_) :
    w.lockObserver a = some c ↔ w.observers[a]? = some c ∧ c.alive = true := by
  unfold World.lockObserver
  cases h : w.observers[a]? with
  | none => simp
  | some d =>
    by_cases hd : d.alive = true
    · simp only [hd, if_true, Option.some.injEq]
      constructor
      · rintro rfl; exact ⟨rfl, hd⟩
      · rintro ⟨rfl, _⟩; rfl
    · simp only [hd, if_false, Option.some.injEq]
      constructor
      · intro h0; cases h0
      · rintro ⟨rfl, hc⟩; exact absurd hc hd

theorem observerExpired_eq_false (w : World) (a : Addr) :
    w.observerExpired a = false ↔ ∃ c, w.observers[a]? = some c ∧ c.alive = true := by
  unfold World.observerExpired
  cases w.observers[a]? with
  | none => simp
  | some c => cases h : c.alive <;> simp [h]

theorem observerExpired_lt (w : World) (a : Addr) (h : w.observerExpired a = false) :
    a < w.observers.length := by
  obtain ⟨c, hc, _⟩ := (observerExpired_eq_false w a).1 h
  by_contra hn
  rw [List.getElem?_eq_none (Nat.le_of_not_lt hn)] at hc
  cases hc

theorem signalExpired_lt (w : World) (a : Addr) (h : w.signalExpired a = false) :
    a < w.signals.length := by
  unfold World.signalExpired at h
  by_contra hn
  rw [List.getElem?_eq_none (Nat.le_of_not_lt hn)] at h
  cases h

/-! ## Lemmas on the fan-out loop -/

theorem emitLoop_log (w : World) (x : Int) (l : List Addr) (calls : List Call)
    (es : List Addr) :
    ∃ new : List Call, (emitLoop w x l calls es).2.1 = calls ++ new ∧
      ∀ c ∈ new, c.observer ∈ l ∧ w.observerExpired c.observer = false ∧ c.arg = x ∧
        ∃ d, w.lockObserver c.observer = some d ∧ d.mStoredFunction = some c.target := by
  induction l generalizing calls es with
  | nil => exact ⟨[], by simp [emitLoop]⟩
  | cons a rest ih =>
    unfold emitLoop
    cases hl : w.lockObserver a with
    | none =>
      obtain ⟨new, h1, h2⟩ := ih calls (es ++ [a])
      refine ⟨new, h1, ?_⟩
      intro c hc
      obtain ⟨m, r⟩ := h2 c hc
      exact ⟨List.mem_cons_of_mem _ m, r⟩
    | some d =>
      cases hf : d.mStoredFunction with
      | none => exact ⟨[], by simp [hf]⟩
      | some f =>
        obtain ⟨new, h1, h2⟩ := ih (calls ++ [⟨a, f, x⟩]) es
        refine ⟨⟨a, f, x⟩ :: new, by simp [hf, h1], ?_⟩
        intro c hc
        rcases List.mem_cons.1 hc with rfl | hc
        · refine ⟨by simp, ?_, rfl, d, hl, hf⟩
          have := (lockObserver_eq_some w a d).1 hl
          exact (observerExpired_eq_false w a).2 ⟨d, this⟩
        · obtain ⟨m, r⟩ := h2 c hc
          exact ⟨List.mem_cons_of_mem _ m, r⟩

theorem emitLoop_eq (w : World)
    (hc : ∀ (a : Addr) (c : SignalObserver_), w.observers[a]? = some c → c.mStoredFunction ≠ none)
    (x : Int) (l : List Addr) (calls : List Call) (es : List Addr) :
    emitLoop w x l calls es =
      (Outcome.ok, calls ++ liveCalls w x l, es ++ l.filter w.observerExpired) := by
  induction l generalizing calls es with
  | nil => simp [emitLoop, liveCalls]
  | cons a rest ih =>
    unfold emitLoop
    cases hl : w.lockObserver a with
    | none =>
      have he := (lockObserver_eq_none w a).1 hl
      simp [ih, liveCalls, hl, he]
    | some d =>
      have hd := (lockObserver_eq_some w a d).1 hl
      have he : w.observerExpired a = false := (observerExpired_eq_false w a).2 ⟨d, hd⟩
      cases hf : d.mStoredFunction with
      | none => exact absurd hf (hc a d hd.1)
      | some f => simp [ih, liveCalls, hl, he, hf]

/-! ## What each function leaves unchanged -/

@[simp] theorem garbageCollection_signals (t : Nat) (w : World) :
    (garbageCollection t w).signals = w.signals := rfl

@[simp] theorem garbageCollection_observers (t : Nat) (w : World) :
    (garbageCollection t w).observers = w.observers := rfl

@[simp] theorem garbageCollection_log (t : Nat) (w : World) :
    (garbageCollection t w).log = w.log := rfl

@[simp] theorem garbageCollection_observersOf (t : Nat) (w : World) (sig : Addr) :
    (garbageCollection t w).observersOf sig = w.observersOf sig := rfl

@[simp] theorem garbageCollection_observerExpired (t : Nat) (w : World) (a : Addr) :
    (garbageCollection t w).observerExpired a = w.observerExpired a := rfl

@[simp] theorem garbageCollection_signalExpired (t : Nat) (w : World) (a : Addr) :
    (garbageCollection t w).signalExpired a = w.signalExpired a := rfl

@[simp] theorem garbageCollection_lockObserver (t : Nat) (w : World) (a : Addr) :
    (garbageCollection t w).lockObserver a = w.lockObserver a := rfl

@[simp] theorem setObserversOf_observers (w : World) (sig : Addr) (obs : List Addr) :
    (w.setObserversOf sig obs).observers = w.observers := rfl

@[simp] theorem setObserversOf_trackers (w : World) (sig : Addr) (obs : List Addr) :
    (w.setObserversOf sig obs).trackers = w.trackers := rfl

@[simp] theorem setObserversOf_log (w : World) (sig : Addr) (obs : List Addr) :
    (w.setObserversOf sig obs).log = w.log := rfl

@[simp] theorem setObserversOf_observerExpired (w : World) (sig : Addr) (obs : List Addr)
    (a : Addr) : (w.setObserversOf sig obs).observerExpired a = w.observerExpired a := rfl

@[simp] theorem setObserversOf_lockObserver (w : World) (sig : Addr) (obs : List Addr)
    (a : Addr) : (w.setObserversOf sig obs).lockObserver a = w.lockObserver a := rfl

theorem setObserversOf_observersOf (w : World) (sig : Addr) (obs : List Addr) (sig2 : Addr) :
    (w.setObserversOf sig obs).observersOf sig2 =
      if sig2 = sig ∧ sig < w.signals.length then obs else w.observersOf sig2 := by
  unfold World.setObserversOf World.observersOf
  simp only [List.getElem?_modify]
  by_cases h : sig = sig2
  · subst h
    by_cases hl : sig < w.signals.length
    · simp [hl, List.getElem?_eq_getElem]
    · simp [hl, List.getElem?_eq_none (Nat.le_of_not_lt hl)]
  · have h2 : ¬ sig2 = sig := fun e => h e.symm
    simp [h, h2]

@[simp] theorem setObserversOf_signalExpired (w : World) (sig : Addr) (obs : List Addr)
    (a : Addr) : (w.setObserversOf sig obs).signalExpired a = w.signalExpired a := by
  unfold World.setObserversOf World.signalExpired
  simp only [List.getElem?_modify]
  by_cases h : sig = a
  · subst h
    cases w.signals[sig]? <;> simp
  · simp [h]

@[simp] theorem destroySignal_observersOf (w : World) (a sig : Addr) :
    (w.destroySignal a).observersOf sig = w.observersOf sig := by
  unfold World.destroySignal World.observersOf
  simp only [List.getElem?_modify]
  by_cases h : a = sig
  · subst h
    cases w.signals[a]? <;> simp
  · simp [h]

@[simp] theorem destroySignal_observers (w : World) (a : Addr) :
    (w.destroySignal a).observers = w.observers := rfl

@[simp] theorem destroySignal_trackers (w : World) (a : Addr) :
    (w.destroySignal a).trackers = w.trackers := rfl

@[simp] theorem destroySignal_log (w : World) (a : Addr) :
    (w.destroySignal a).log = w.log := rfl

@[simp] theorem destroyObserver_observersOf (w : World) (a sig : Addr) :
    (w.destroyObserver a).observersOf sig = w.observersOf sig := rfl

@[simp] theorem destroyObserver_signals (w : World) (a : Addr) :
    (w.destroyObserver a).signals = w.signals := rfl

@[simp] theorem destroyObserver_trackers (w : World) (a : Addr) :
    (w.destroyObserver a).trackers = w.trackers := rfl

@[simp] theorem destroyObserver_log (w : World) (a : Addr) :
    (w.destroyObserver a).log = w.log := rfl

theorem destroyObserver_get (w : World) (a b : Addr) (c : SignalObserver_)
    (h : (w.destroyObserver a).observers[b]? = some c) :
    ∃ c0, w.observers[b]? = some c0 ∧ c.mStoredFunction = c0.mStoredFunction ∧
      (c.alive = true → c0.alive = true ∧ b ≠ a) := by
  unfold World.destroyObserver at h
  simp only [List.getElem?_modify] at h
  cases h0 : w.observers[b]? with
  | none => simp [h0] at h
  | some c0 =>
    by_cases hab : a = b
    · subst hab
      simp [h0] at h
      subst h
      exact ⟨c0, rfl, rfl, by simp⟩
    · simp [h0, hab] at h
      subst h
      exact ⟨c0, rfl, rfl, fun hc => ⟨hc, fun e => hab e.symm⟩⟩

@[simp] theorem declareSignal_observers (t : Nat) (name : String) (w : World) :
    (declareSignal t name w).2.observers = w.observers := rfl

@[simp] theorem declareSignal_log (t : Nat) (name : String) (w : World) :
    (declareSignal t name w).2.log = w.log := rfl

@[simp] theorem declareSignal_signals (t : Nat) (name : String) (w : World) :
    (declareSignal t name w).2.signals = w.signals ++ [⟨true, []⟩] := rfl

@[simp] theorem declareSignal_observersOf (t : Nat) (name : String) (w : World) (sig : Addr) :
    (declareSignal t name w).2.observersOf sig = w.observersOf sig := by
  unfold World.observersOf
  rw [declareSignal_signals]
  rcases Nat.lt_trichotomy sig w.signals.length with h | h | h
  · rw [List.getElem?_append_left h]
  · subst h
    simp
  · rw [List.getElem?_eq_none (Nat.le_of_lt h), List.getElem?_eq_none]
    simp; omega

@[simp] theorem declareSignalObserver_signals (t : Nat) (name : String) (cb : Callback)
    (w : World) : (declareSignalObserver t name cb w).2.signals = w.signals := rfl

@[simp] theorem declareSignalObserver_log (t : Nat) (name : String) (cb : Callback)
    (w : World) : (declareSignalObserver t name cb w).2.log = w.log := rfl

@[simp] theorem declareSignalObserver_observers (t : Nat) (name : String) (cb : Callback)
    (w : World) :
    (declareSignalObserver t name cb w).2.observers = w.observers ++ [⟨true, cb⟩] := rfl

@[simp] theorem declareSignalObserver_observersOf (t : Nat) (name : String) (cb : Callback)
    (w : World) (sig : Addr) :
    (declareSignalObserver t name cb w).2.observersOf sig = w.observersOf sig := rfl

/-! ## `Signal_::emit` in closed form -/

theorem eraseObservers_expired (w : World) (l : List Addr) :
    eraseObservers (l.filter w.observerExpired) l = l.filter (fun a => !w.observerExpired a) := by
  rw [eraseObservers_eq_filter]
  apply List.filter_congr
  intro y hy
  cases h : w.observerExpired y <;> simp [h, hy]

theorem emit_eq (w : World)
    (hc : ∀ (a : Addr) (c : SignalObserver_), w.observers[a]? = some c → c.mStoredFunction ≠ none)
    (sig : Addr) (x : Int) :
    Signal_.emit sig x w =
      (Outcome.ok,
        World.setObserversOf { w with log := w.log ++ liveCalls w x (w.observersOf sig) } sig
          ((w.observersOf sig).filter (fun a => !w.observerExpired a))) := by
  unfold Signal_.emit
  rw [emitLoop_eq w hc]
  simp only [List.nil_append]
  rw [eraseObservers_expired]

theorem emit_log (w : World) (sig : Addr) (x : Int) :
    ∃ new : List Call, (Signal_.emit sig x w).2.log = w.log ++ new ∧
      ∀ c ∈ new, c.observer ∈ w.observersOf sig ∧ w.observerExpired c.observer = false ∧
        c.arg = x ∧
        ∃ d, w.lockObserver c.observer = some d ∧ d.mStoredFunction = some c.target := by
  obtain ⟨new, h1, h2⟩ := emitLoop_log w x (w.observersOf sig) [] []
  refine ⟨new, ?_, h2⟩
  unfold Signal_.emit
  rcases h : emitLoop w x (w.observersOf sig) [] [] with ⟨o, calls, es⟩
  rw [h] at h1
  simp only [List.nil_append] at h1
  cases o <;> simp [h1]

/-! ## The invariant holds in every reachable state -/

theorem Inv.congr {w v : World} (h : Inv w)
    (h1 : ∀ sig, v.observersOf sig = w.observersOf sig) (h2 : v.observers = w.observers) :
    Inv v :=
  ⟨fun sig => by rw [h1]; exact h.sorted sig,
   fun sig a ha => by rw [h2]; exact h.bounded sig a (by rw [← h1]; exact ha),
   fun a c hac => h.callable a c (by rw [← h2]; exact hac)⟩

theorem inv_empty : Inv World.empty :=
  ⟨fun sig => by simp [World.observersOf, World.empty],
   fun sig a h => by simp [World.observersOf, World.empty] at h,
   fun a c h => by simp [World.empty] at h⟩

theorem inv_setObserversOf {w : World} (h : Inv w) (sig : Addr) (obs : List Addr)
    (ho : obs.Pairwise (· < ·)) (hb : ∀ a ∈ obs, a < w.observers.length) :
    Inv (w.setObserversOf sig obs) := by
  refine ⟨fun sig2 => ?_, fun sig2 a ha => ?_, fun a c hac => h.callable a c hac⟩
  · rw [setObserversOf_observersOf]
    split_ifs
    · exact ho
    · exact h.sorted sig2
  · rw [setObserversOf_observersOf] at ha
    split_ifs at ha
    · exact hb a ha
    · exact h.bounded sig2 a ha

theorem inv_garbageCollection {w : World} (h : Inv w) (t : Nat) :
    Inv (garbageCollection t w) :=
  h.congr (fun _ => rfl) rfl

theorem inv_newTracker {w : World} (h : Inv w) : Inv (newTracker w).2 :=
  h.congr (fun _ => rfl) rfl

theorem inv_declareSignal {w : World} (h : Inv w) (t : Nat) (name : String) :
    Inv (declareSignal t name w).2 :=
  h.congr (fun sig => declareSignal_observersOf t name w sig) rfl

theorem inv_declareSignalObserver {w : World} (h : Inv w) (t : Nat) (name : String)
    (f : Nat) : Inv (declareSignalObserver t name (some f) w).2 := by
  refine ⟨fun sig => h.sorted sig, fun sig a ha => ?_, fun a c hac => ?_⟩
  · rw [declareSignalObserver_observers, List.length_append]
    exact Nat.lt_add_right _ (h.bounded sig a ha)
  rw [declareSignalObserver_observers] at hac
  rcases Nat.lt_trichotomy a w.observers.length with hl | hl | hl
  · rw [List.getElem?_append_left hl] at hac
    exact h.callable a c hac
  · subst hl
    simp at hac
    subst hac
    simp
  · rw [List.getElem?_eq_none] at hac
    · cases hac
    · simp; omega

theorem inv_destroySignal {w : World} (h : Inv w) (a : Addr) : Inv (w.destroySignal a) :=
  h.congr (fun sig => destroySignal_observersOf w a sig) rfl

theorem inv_destroyObserver {w : World} (h : Inv w) (a : Addr) : Inv (w.destroyObserver a) := by
  refine ⟨fun sig => h.sorted sig, fun sig b hb => ?_, fun b c hbc => ?_⟩
  · have := h.bounded sig b hb
    simpa [World.destroyObserver] using this
  obtain ⟨c0, h0, hf, _⟩ := destroyObserver_get w a b c hbc
  rw [hf]
  exact h.callable b c0 h0

theorem inv_registerObserver {w : World} (h : Inv w) (sig o : Addr) :
    Inv (Signal_.registerObserver sig o w).2 := by
  unfold Signal_.registerObserver
  split_ifs
  · exact h
  · rename_i he
    refine inv_setObserversOf h sig _ (setInsert_sorted o _ (h.sorted sig)) ?_
    intro a ha
    rcases (mem_setInsert o a _).1 ha with rfl | ha
    · exact observerExpired_lt w a (by simpa using he)
    · exact h.bounded sig a ha

theorem inv_emit {w : World} (h : Inv w) (sig : Addr) (x : Int) :
    Inv (Signal_.emit sig x w).2 := by
  rw [emit_eq w h.callable]
  have h0 : Inv { w with log := w.log ++ liveCalls w x (w.observersOf sig) } :=
    h.congr (fun _ => rfl) rfl
  exact inv_setObserversOf h0 sig _ (List.Pairwise.filter _ (h.sorted sig))
    (fun a ha => h.bounded sig a (List.mem_of_mem_filter ha))

theorem inv_connect {w : World} (h : Inv w) (t : Nat) (s o : String) (other : Nat) :
    Inv (connect t s o other w).2 := by
  unfold connect
  split
  · exact h
  · split_ifs
    · exact h
    · split
      · exact h
      · split_ifs
        · exact h
        · split
          · rename_i hreg
            have hw := congrArg Prod.snd hreg
            simp only at hw
            rw [← hw]
            exact inv_garbageCollection (inv_registerObserver h _ _) t
          · exact inv_registerObserver h _ _

theorem inv_resetSignal {w : World} (h : Inv w) (self : Signal) (t : Nat) (name : String) :
    Inv (Signal.resetSignal self t name w).2 := by
  unfold Signal.resetSignal
  split
  · exact inv_destroySignal (inv_declareSignal h t name) _
  · exact inv_declareSignal h t name

theorem inv_resetObserver {w : World} (h : Inv w) (self : SignalObserver) (t : Nat)
    (name : String) (cb : Callback) :
    Inv (SignalObserver.resetObserver self t name cb w).2.2 := by
  unfold SignalObserver.resetObserver
  split
  · exact h
  · split
    · exact inv_destroyObserver (inv_declareSignalObserver h t name _) _
    · exact inv_declareSignalObserver h t name _

theorem inv_step {w : World} (h : Inv w) (op : Op) : Inv (step op w).2 := by
  cases op with
  | newTracker => exact inv_newTracker h
  | newSignal t name =>
    simp only [step]; split_ifs
    · exact inv_resetSignal h _ t name
    · exact h
  | resetSignal a t name =>
    simp only [step]; split_ifs
    · exact inv_resetSignal h _ t name
    · exact h
  | emit a x =>
    simp only [step]; split_ifs
    · exact inv_emit h a x
    · exact h
  | destroySignal a =>
    simp only [step]; split_ifs
    · exact inv_destroySignal h a
    · exact h
  | newObserver t name cb =>
    simp only [step]; split_ifs
    · exact inv_resetObserver h _ t name cb
    · exact h
  | resetObserver a t name cb =>
    simp only [step]; split_ifs
    · exact inv_resetObserver h _ t name cb
    · exact h
  | connectDirect o s =>
    simp only [step]; split_ifs
    · exact inv_registerObserver h s o
    · exact h
  | destroyObserver a =>
    simp only [step]; split_ifs
    · exact inv_destroyObserver h a
    · exact h
  | connect t s o other =>
    simp only [step]; split_ifs
    · exact inv_connect h t s o other
    · exact h

theorem inv_run (ops : List Op) {w : World} (h : Inv w) : Inv (run ops w) := by
  induction ops generalizing w with
  | nil => exact h
  | cons op ops ih => exact ih (inv_step h op)

theorem reachable_inv {w : World} (h : Reachable w) : Inv w := by
  obtain ⟨ops, rfl⟩ := h
  exact inv_run ops inv_empty

/-! ## Lemmas on the calls of one pass -/

theorem liveCalls_cons (w : World) (x : Int) (b : Addr) (l : List Addr) :
    liveCalls w x (b :: l) = liveCalls w x [b] ++ liveCalls w x l := by
  unfold liveCalls
  rw [List.filterMap_cons, List.filterMap_cons, List.filterMap_nil]
  split <;> simp

theorem liveCalls_single_observer (w : World) (x : Int) (b : Addr) :
    ∀ c ∈ liveCalls w x [b], c.observer = b := by
  intro c hc
  unfold liveCalls at hc
  simp only [List.filterMap_cons, List.filterMap_nil] at hc
  cases hl : w.lockObserver b with
  | none => simp [hl] at hc
  | some d =>
    cases hf : d.mStoredFunction with
    | none => simp [hl, hf] at hc
    | some f =>
      simp [hl, hf] at hc
      rw [hc]

theorem callsOf_append (a : Addr) (l1 l2 : List Call) :
    callsOf a (l1 ++ l2) = callsOf a l1 ++ callsOf a l2 := by
  simp [callsOf]

theorem callsOf_liveCalls_single (w : World) (x : Int) (a b : Addr) :
    callsOf a (liveCalls w x [b]) = if a = b then liveCalls w x [b] else [] := by
  unfold callsOf
  split_ifs with h
  · rw [List.filter_eq_self]
    intro c hc
    simp [liveCalls_single_observer w x b c hc, h]
  · rw [List.filter_eq_nil_iff]
    intro c hc
    simp only [liveCalls_single_observer w x b c hc, decide_eq_true_eq]
    exact fun e => h e.symm

theorem callsOf_liveCalls_of_not_mem (w : World) (x : Int) (a : Addr) (l : List Addr)
    (ha : a ∉ l) : callsOf a (liveCalls w x l) = [] := by
  induction l with
  | nil => simp [liveCalls, callsOf]
  | cons b rest ih =>
    rw [liveCalls_cons, callsOf_append, callsOf_liveCalls_single]
    have hab : a ≠ b := fun e => ha (by simp [e])
    have har : a ∉ rest := fun e => ha (List.mem_cons_of_mem _ e)
    simp [hab, ih har]

theorem callsOf_liveCalls (w : World) (x : Int) (a : Addr) (l : List Addr)
    (hl : l.Pairwise (· < ·)) (ha : a ∈ l) :
    callsOf a (liveCalls w x l) = liveCalls w x [a] := by
  induction l with
  | nil => simp at ha
  | cons b rest ih =>
    rw [List.pairwise_cons] at hl
    rw [liveCalls_cons, callsOf_append, callsOf_liveCalls_single]
    by_cases hab : a = b
    · subst hab
      have har : a ∉ rest := fun e => Nat.lt_irrefl a (hl.1 a e)
      simp [callsOf_liveCalls_of_not_mem w x a rest har]
    · have har : a ∈ rest := by
        rcases List.mem_cons.1 ha with e | e
        · exact absurd e hab
        · exact e
      simp [hab, ih hl.2 har]

theorem liveCalls_single_of_lock (w : World) (x : Int) (a : Addr) (d : SignalObserver_)
    (f : Nat) (hl : w.lockObserver a = some d) (hf : d.mStoredFunction = some f) :
    liveCalls w x [a] = [⟨a, f, x⟩] := by
  simp [liveCalls, hl, hf]

theorem liveCalls_of_expired (w : World) (x : Int) (a : Addr)
    (h : w.observerExpired a = true) : liveCalls w x [a] = [] := by
  simp [liveCalls, (lockObserver_eq_none w a).2 h]

theorem liveCalls_observers (w : World)
    (hc : ∀ (a : Addr) (c : SignalObserver_), w.observers[a]? = some c → c.mStoredFunction ≠ none)
    (x : Int) (l : List Addr) :
    (liveCalls w x l).map (fun c => c.observer) = l.filter (fun a => !w.observerExpired a) := by
  induction l with
  | nil => simp [liveCalls]
  | cons b rest ih =>
    rw [liveCalls_cons, List.map_append, ih]
    cases hl : w.lockObserver b with
    | none =>
      have he := (lockObserver_eq_none w b).1 hl
      simp [liveCalls, hl, he]
    | some d =>
      have hd := (lockObserver_eq_some w b d).1 hl
      have he : w.observerExpired b = false := (observerExpired_eq_false w b).2 ⟨d, hd⟩
      cases hf : d.mStoredFunction with
      | none => exact absurd hf (hc b d hd.1)
      | some f => simp [liveCalls, hl, he, hf]

theorem mem_liveCalls (w : World) (x : Int) (l : List Addr) (c : Call)
    (h : c ∈ liveCalls w x l) :
    c.observer ∈ l ∧ w.observerExpired c.observer = false ∧ c.arg = x := by
  induction l with
  | nil => simp [liveCalls] at h
  | cons b rest ih =>
    rw [liveCalls_cons, List.mem_append] at h
    rcases h with h | h
    · have hb := liveCalls_single_observer w x b c h
      refine ⟨by simp [hb], ?_, ?_⟩
      · by_contra he
        have he2 : w.observerExpired b = true := by
          rw [hb] at he; simpa using he
        rw [liveCalls_of_expired w x b he2] at h
        simp at h
      · unfold liveCalls at h
        simp only [List.filterMap_cons, List.filterMap_nil] at h
        cases hl : w.lockObserver b with
        | none => simp [hl] at h
        | some d =>
          cases hf : d.mStoredFunction with
          | none => simp [hl, hf] at h
          | some f =>
            simp [hl, hf] at h
            rw [h]
    · obtain ⟨m, r⟩ := ih h
      exact ⟨List.mem_cons_of_mem _ m, r⟩

theorem run_append (ops1 ops2 : List Op) (w : World) :
    run (ops1 ++ ops2) w = run ops2 (run ops1 w) := by
  induction ops1 generalizing w with
  | nil => rfl
  | cons op ops ih => exact ih _

theorem destroyObserver_expired (w : World) (o : Addr) :
    (w.destroyObserver o).observerExpired o = true := by
  unfold World.destroyObserver World.observerExpired
  simp only [List.getElem?_modify]
  cases w.observers[o]? <;> simp

theorem step_destroyObserver_expired (w : World) (o : Addr) :
    (step (Op.destroyObserver o) w).2.observerExpired o = true := by
  simp only [step]
  split_ifs with h
  · exact destroyObserver_expired w o
  · simpa using h

/-! ## The fan-out of one `emit` -/

/-- C1: in every reachable state, `emit(x)` on a `Signal_` ends normally and calls the stored
function of each observer that is in its set and alive when the call starts exactly once,
with `x`, and calls nothing else; the number of calls is the number of live members. -/
theorem emit_invokes_each_live_observer_once (w : World) (hw : Reachable w) (sig : Addr)
    (x : Int) :
    (Signal_.emit sig x w).1 = Outcome.ok ∧
    ∃ calls : List Call,
      (Signal_.emit sig x w).2.log = w.log ++ calls ∧
      (∀ a ∈ w.observersOf sig, w.observerExpired a = false →
        ∃ c f, w.lockObserver a = some c ∧ c.mStoredFunction = some f ∧
          callsOf a calls = [⟨a, f, x⟩]) ∧
      (∀ c ∈ calls, c.observer ∈ w.observersOf sig ∧
        w.observerExpired c.observer = false ∧ c.arg = x) ∧
      calls.length = ((w.observersOf sig).filter (fun a => !w.observerExpired a)).length := by
  have hi := reachable_inv hw
  rw [emit_eq w hi.callable]
  refine ⟨rfl, liveCalls w x (w.observersOf sig), rfl, ?_, ?_, ?_⟩
  · intro a ha he
    obtain ⟨c, hc, hal⟩ := (observerExpired_eq_false w a).1 he
    have hl : w.lockObserver a = some c := (lockObserver_eq_some w a c).2 ⟨hc, hal⟩
    cases hf : c.mStoredFunction with
    | none => exact absurd hf (hi.callable a c hc)
    | some f =>
      refine ⟨c, f, hl, hf, ?_⟩
      rw [callsOf_liveCalls w x a _ (hi.sorted sig) ha, liveCalls_single_of_lock w x a c f hl hf]
  · intro c hc
    exact mem_liveCalls w x _ c hc
  · rw [← liveCalls_observers w hi.callable x, List.length_map]

/-- C1, on the state of case 3 of `main`: the hypothesis holds there and `emit(3)` makes
exactly five calls. -/
theorem emit_invokes_each_live_observer_once_witness :
    Reachable (run fiveObservers World.empty) ∧
    (Signal_.emit 0 3 (run fiveObservers World.empty)).1 = Outcome.ok ∧
    ((Signal_.emit 0 3 (run fiveObservers World.empty)).2.log.length = 5) :=
  ⟨⟨fiveObservers, rfl⟩,
   (emit_invokes_each_live_observer_once _ ⟨fiveObservers, rfl⟩ 0 3).1, by decide⟩

/-- C2: whatever program of mint, connect, reset, destroy and emit calls has run from the
empty state, an `emit` calls only observers that are alive; and right after an observer is
destroyed, an `emit` on any signal makes no call to it. -/
theorem emit_never_invokes_destroyed (ops : List Op) (h o : Addr) (x : Int) :
    (∃ calls : List Call,
      (step (Op.emit h x) (run ops World.empty)).2.log = (run ops World.empty).log ++ calls ∧
      ∀ c ∈ calls, (run ops World.empty).observerExpired c.observer = false) ∧
    (∃ calls : List Call,
      (step (Op.emit h x) (run (ops ++ [Op.destroyObserver o]) World.empty)).2.log =
        (run (ops ++ [Op.destroyObserver o]) World.empty).log ++ calls ∧
      callsOf o calls = []) := by
  have key : ∀ w : World, ∃ calls : List Call,
      (step (Op.emit h x) w).2.log = w.log ++ calls ∧
      ∀ c ∈ calls, w.observerExpired c.observer = false := by
    intro w
    simp only [step]
    split_ifs
    · obtain ⟨new, h1, h2⟩ := emit_log w h x
      exact ⟨new, h1, fun c hc => (h2 c hc).2.1⟩
    · exact ⟨[], by simp⟩
  refine ⟨key _, ?_⟩
  obtain ⟨calls, h1, h2⟩ := key (run (ops ++ [Op.destroyObserver o]) World.empty)
  refine ⟨calls, h1, ?_⟩
  unfold callsOf
  rw [List.filter_eq_nil_iff]
  intro c hc hco
  have hx := h2 c hc
  rw [run_append] at hx
  have hy := step_destroyObserver_expired (run ops World.empty) o
  simp only [decide_eq_true_eq] at hco
  rw [hco] at hx
  simp only [run] at hx
  rw [hy] at hx
  cases hx

/-! ## Connecting by name -/

theorem emit_member_once (w : World) (hi : Inv w) (sig : Addr) (x : Int) (a : Addr)
    (ha : a ∈ w.observersOf sig) (he : w.observerExpired a = false) :
    ∃ (c : SignalObserver_) (f : Nat) (calls : List Call),
      w.lockObserver a = some c ∧ c.mStoredFunction = some f ∧
      Signal_.emit sig x w =
        (Outcome.ok,
          World.setObserversOf { w with log := w.log ++ calls } sig
            ((w.observersOf sig).filter (fun a => !w.observerExpired a))) ∧
      (Signal_.emit sig x w).2.log = w.log ++ calls ∧
      callsOf a calls = [⟨a, f, x⟩] := by
  obtain ⟨c, hc, hal⟩ := (observerExpired_eq_false w a).1 he
  have hl : w.lockObserver a = some c := (lockObserver_eq_some w a c).2 ⟨hc, hal⟩
  cases hf : c.mStoredFunction with
  | none => exact absurd hf (hi.callable a c hc)
  | some f =>
    refine ⟨c, f, liveCalls w x (w.observersOf sig), hl, hf, emit_eq w hi.callable sig x, ?_, ?_⟩
    · rw [emit_eq w hi.callable]; rfl
    · rw [callsOf_liveCalls w x a _ (hi.sorted sig) ha, liveCalls_single_of_lock w x a c f hl hf]

theorem connect_ok (w : World) (R O : Nat) (s o : String) (E U : Addr)
    (hE : mapAt s (w.tracker O).mSignals = some E) (hEl : w.signalExpired E = false)
    (hU : mapAt o (w.tracker R).mObservers = some U) (hUl : w.observerExpired U = false) :
    connect R s o O w =
      (Outcome.ok,
        garbageCollection R (w.setObserversOf E (setInsert U (w.observersOf E)))) := by
  simp [connect, hE, hEl, hU, hUl, Signal_.registerObserver]

/-- C3: when the other registry holds a live `Signal_` under `s` and this registry a live
`SignalObserver_` under `o`, `connect` ends normally, the signal's observer set becomes the
old set with the observer inserted, and a following `emit(x)` on the signal calls the
observer's stored function exactly once, with `x`. -/
theorem connect_attaches_observer (w : World) (hw : Reachable w) (R O : Nat) (s o : String)
    (E U : Addr) (x : Int)
    (hE : mapAt s (w.tracker O).mSignals = some E) (hEl : w.signalExpired E = false)
    (hU : mapAt o (w.tracker R).mObservers = some U) (hUl : w.observerExpired U = false) :
    (connect R s o O w).1 = Outcome.ok ∧
    (connect R s o O w).2.observersOf E = setInsert U (w.observersOf E) ∧
    (∀ a, a ∈ (connect R s o O w).2.observersOf E ↔ a = U ∨ a ∈ w.observersOf E) ∧
    ∃ (c : SignalObserver_) (f : Nat) (calls : List Call),
      w.lockObserver U = some c ∧ c.mStoredFunction = some f ∧
      (Signal_.emit E x (connect R s o O w).2).1 = Outcome.ok ∧
      (Signal_.emit E x (connect R s o O w).2).2.log = (connect R s o O w).2.log ++ calls ∧
      callsOf U calls = [⟨U, f, x⟩] := by
  have hi := reachable_inv hw
  have hi2 := inv_connect hi R s o O
  have hobs : (connect R s o O w).2.observersOf E = setInsert U (w.observersOf E) := by
    rw [connect_ok w R O s o E U hE hEl hU hUl]
    simp [setObserversOf_observersOf, signalExpired_lt w E hEl]
  have hmem : U ∈ (connect R s o O w).2.observersOf E := by
    rw [hobs]; exact (mem_setInsert U U _).2 (Or.inl rfl)
  have hexp : (connect R s o O w).2.observerExpired U = false := by
    rw [connect_ok w R O s o E U hE hEl hU hUl]
    simpa using hUl
  have hlock : (connect R s o O w).2.lockObserver U = w.lockObserver U := by
    rw [connect_ok w R O s o E U hE hEl hU hUl]
    simp
  refine ⟨by rw [connect_ok w R O s o E U hE hEl hU hUl], hobs, ?_, ?_⟩
  · intro a; rw [hobs]; exact mem_setInsert U a _
  · obtain ⟨c, f, calls, h1, h2, h3, h4, h5⟩ := emit_member_once _ hi2 E x U hmem hexp
    exact ⟨c, f, calls, by rw [← hlock]; exact h1, h2, by rw [h3], h4, h5⟩

/-- C3, on the state of case 1 of `main` before `connect`: the hypotheses hold there and
`connect` ends normally. -/
theorem connect_attaches_observer_witness :
    Reachable (run oneOfEach World.empty) ∧
    mapAt "somethingDone" ((run oneOfEach World.empty).tracker 0).mSignals = some 0 ∧
    (run oneOfEach World.empty).signalExpired 0 = false ∧
    mapAt "somethingDone" ((run oneOfEach World.empty).tracker 1).mObservers = some 0 ∧
    (run oneOfEach World.empty).observerExpired 0 = false ∧
    (connect 1 "somethingDone" "somethingDone" 0 (run oneOfEach World.empty)).1 = Outcome.ok ∧
    (connect 1 "somethingDone" "somethingDone" 0 (run oneOfEach World.empty)).2.observersOf 0
      = setInsert 0 ((run oneOfEach World.empty).observersOf 0) :=
  have h := connect_attaches_observer (run oneOfEach World.empty) ⟨oneOfEach, rfl⟩ 1 0
    "somethingDone" "somethingDone" 0 0 1 (by decide) (by decide) (by decide) (by decide)
  ⟨⟨oneOfEach, rfl⟩, by decide, by decide, by decide, by decide, h.1, h.2.1⟩

/-- C4: `connect` fails exactly when the other registry has no entry under `s` or that
entry is expired, or this registry has no entry under `o` or that entry is expired; and a
failed `connect` leaves the whole state as it was. -/
theorem connect_fails_iff_lookup_misses (w : World) (R O : Nat) (s o : String) :
    ((connect R s o O w).1 ≠ Outcome.ok ↔
      ((mapAt s (w.tracker O).mSignals = none ∨
          ∃ E, mapAt s (w.tracker O).mSignals = some E ∧ w.signalExpired E = true) ∨
       (mapAt o (w.tracker R).mObservers = none ∨
          ∃ U, mapAt o (w.tracker R).mObservers = some U ∧ w.observerExpired U = true))) ∧
    ((connect R s o O w).1 ≠ Outcome.ok → (connect R s o O w).2 = w) := by
  cases hE : mapAt s (w.tracker O).mSignals with
  | none => simp [connect, hE]
  | some E =>
    cases hEl : w.signalExpired E with
    | true => simp [connect, hE, hEl]
    | false =>
      cases hU : mapAt o (w.tracker R).mObservers with
      | none => simp [connect, hE, hEl, hU]
      | some U =>
        cases hUl : w.observerExpired U with
        | true => simp [connect, hE, hEl, hU, hUl]
        | false =>
          rw [connect_ok w R O s o E U hE hEl hU hUl]
          simp [hEl, hUl]

/-! ## Minting under a name that is already present -/

/-- C5: `declareSignal` and `declareSignalObserver` under a name that is already present.
The new endpoint gets address 1, yet a live prior entry stays in place (still address 0),
and an expired prior entry is swept away without the new one taking its place; after
`resetSignal` under the same name, `connect` by that name fails. -/
theorem declare_keeps_prior_entry :
    (declareSignal 0 "n" liveEntries).1 = 1 ∧
    mapAt "n" ((declareSignal 0 "n" liveEntries).2.tracker 0).mSignals = some 0 ∧
    (declareSignalObserver 0 "n" (some 8) liveEntries).1 = 1 ∧
    mapAt "n" ((declareSignalObserver 0 "n" (some 8) liveEntries).2.tracker 0).mObservers
      = some 0 ∧
    (declareSignal 0 "n" deadEntries).1 = 1 ∧
    mapAt "n" ((declareSignal 0 "n" deadEntries).2.tracker 0).mSignals = none ∧
    (declareSignalObserver 0 "n" (some 8) deadEntries).1 = 1 ∧
    mapAt "n" ((declareSignalObserver 0 "n" (some 8) deadEntries).2.tracker 0).mObservers
      = none ∧
    (Signal.resetSignal ⟨some 0⟩ 0 "n" liveEntries).1 = ⟨some 1⟩ ∧
    (Signal.resetSignal ⟨some 0⟩ 0 "n" liveEntries).2.signalExpired 1 = false ∧
    (connect 0 "n" "n" 0 (Signal.resetSignal ⟨some 0⟩ 0 "n" liveEntries).2).1
      = Outcome.assertFailed := by
  decide

/-! ## Attaching by identity -/

theorem setObserversOf_self (w : World) (sig : Addr) :
    w.setObserversOf sig (w.observersOf sig) = w := by
  have hm : w.signals.modify (fun s => { s with mObservers := w.observersOf sig }) sig
      = w.signals := by
    apply List.ext_getElem?
    intro i
    rw [List.getElem?_modify]
    by_cases h : sig = i
    · subst h
      unfold World.observersOf
      cases h2 : w.signals[sig]? <;> simp
    · simp [h]
  unfold World.setObserversOf
  rw [hm]

theorem setInsert_length (x : Nat) (l : List Nat) (h : x ∉ l) :
    (setInsert x l).length = l.length + 1 := by
  induction l with
  | nil => simp [setInsert]
  | cons y ys ih =>
    unfold setInsert
    split_ifs with h1 h2
    · simp
    · simp [ih (fun e => h (List.mem_cons_of_mem _ e))]
    · have : x = y := Nat.le_antisymm (Nat.not_lt.1 h2) (Nat.not_lt.1 h1)
      exact absurd (by simp [this]) h

/-- C6: `registerObserver` compares by identity.  Attaching a live observer that is in the
set already changes nothing; attaching one that is not in the set makes the set one larger
and keeps every member, whatever the callables are; in both cases the observer is in the set
afterwards and a following `emit(x)` calls each live member exactly once. -/
theorem registerObserver_by_identity (w : World) (hw : Reachable w) (sig v : Addr) (x : Int)
    (hs : w.signalExpired sig = false) (hv : w.observerExpired v = false) :
    (v ∈ w.observersOf sig → Signal_.registerObserver sig v w = (Outcome.ok, w)) ∧
    (v ∉ w.observersOf sig →
      ((Signal_.registerObserver sig v w).2.observersOf sig).length
        = (w.observersOf sig).length + 1) ∧
    (Signal_.registerObserver sig v w).1 = Outcome.ok ∧
    (∀ a, a ∈ (Signal_.registerObserver sig v w).2.observersOf sig ↔
      a = v ∨ a ∈ w.observersOf sig) ∧
    (∀ u ∈ (Signal_.registerObserver sig v w).2.observersOf sig,
      w.observerExpired u = false →
      ∃ (c : SignalObserver_) (f : Nat) (calls : List Call),
        w.lockObserver u = some c ∧ c.mStoredFunction = some f ∧
        (Signal_.emit sig x (Signal_.registerObserver sig v w).2).2.log
          = (Signal_.registerObserver sig v w).2.log ++ calls ∧
        callsOf u calls = [⟨u, f, x⟩]) := by
  have hi := reachable_inv hw
  have hi2 := inv_registerObserver hi sig v
  have hreg : Signal_.registerObserver sig v w
      = (Outcome.ok, w.setObserversOf sig (setInsert v (w.observersOf sig))) := by
    simp [Signal_.registerObserver, hv]
  have hobs : (Signal_.registerObserver sig v w).2.observersOf sig
      = setInsert v (w.observersOf sig) := by
    rw [hreg]
    simp [setObserversOf_observersOf, signalExpired_lt w sig hs]
  refine ⟨?_, ?_, by rw [hreg], ?_, ?_⟩
  · intro hm
    rw [hreg, setInsert_of_mem v _ (hi.sorted sig) hm, setObserversOf_self]
  · intro hm
    rw [hobs, setInsert_length v _ hm]
  · intro a
    rw [hobs]
    exact mem_setInsert v a _
  · intro u hu hue
    have hue2 : (Signal_.registerObserver sig v w).2.observerExpired u = false := by
      rw [hreg]; simpa using hue
    obtain ⟨c, f, calls, h1, h2, _, h4, h5⟩ := emit_member_once _ hi2 sig x u hu hue2
    refine ⟨c, f, calls, ?_, h2, h4, h5⟩
    rw [hreg] at h1
    simpa using h1

/-- C6, on two observers with the same callable: attaching the second one, which is not in
the set, makes the set one larger. -/
theorem registerObserver_by_identity_witness :
    Reachable (run twinObservers World.empty) ∧
    (run twinObservers World.empty).signalExpired 0 = false ∧
    (run twinObservers World.empty).observerExpired 1 = false ∧
    1 ∉ (run twinObservers World.empty).observersOf 0 ∧
    ((Signal_.registerObserver 0 1 (run twinObservers World.empty)).2.observersOf 0).length
      = ((run twinObservers World.empty).observersOf 0).length + 1 :=
  ⟨⟨twinObservers, rfl⟩, by decide, by decide, by decide,
   (registerObserver_by_identity (run twinObservers World.empty) ⟨twinObservers, rfl⟩ 0 1 0
      (by decide) (by decide)).2.1 (by decide)⟩

/-! ## One observer on many signals -/

theorem emit_observers (w : World) (sig : Addr) (x : Int) :
    (Signal_.emit sig x w).2.observers = w.observers := by
  unfold Signal_.emit
  rcases emitLoop w x (w.observersOf sig) [] [] with ⟨o, calls, es⟩
  cases o <;> rfl

theorem emit_observerExpired (w : World) (sig : Addr) (x : Int) (a : Addr) :
    (Signal_.emit sig x w).2.observerExpired a = w.observerExpired a := by
  unfold World.observerExpired
  rw [emit_observers]

theorem emit_trackers (w : World) (sig : Addr) (x : Int) :
    (Signal_.emit sig x w).2.trackers = w.trackers := by
  unfold Signal_.emit
  rcases emitLoop w x (w.observersOf sig) [] [] with ⟨o, calls, es⟩
  cases o <;> rfl

theorem emit_keeps_live_member (w : World) (hi : Inv w) (sig : Addr) (x : Int) (b a : Addr)
    (ha : a ∈ w.observersOf b) (he : w.observerExpired a = false) :
    a ∈ (Signal_.emit sig x w).2.observersOf b := by
  rw [emit_eq w hi.callable, setObserversOf_observersOf]
  split_ifs with h
  · rw [List.mem_filter]
    refine ⟨?_, by simp [he]⟩
    have hb : b = sig := h.1
    rw [← hb]; exact ha
  · exact ha

theorem emitAll_count (w : World) (hi : Inv w) (U : Addr) (bs : List (Addr × Int))
    (hU : w.observerExpired U = false) (hconn : ∀ b ∈ bs, U ∈ w.observersOf b.1) :
    ∃ calls : List Call, (emitAll bs w).log = w.log ++ calls ∧
      (callsOf U calls).length = bs.length := by
  induction bs generalizing w with
  | nil => exact ⟨[], by simp [emitAll, callsOf]⟩
  | cons p rest ih =>
    obtain ⟨b, x⟩ := p
    have hb : U ∈ w.observersOf b := hconn (b, x) (by simp)
    obtain ⟨c, f, calls1, _, _, _, h4, h5⟩ := emit_member_once w hi b x U hb hU
    have hi1 := inv_emit hi b x
    have hU1 : (Signal_.emit b x w).2.observerExpired U = false := by
      rw [emit_observerExpired]; exact hU
    have hconn1 : ∀ q ∈ rest, U ∈ (Signal_.emit b x w).2.observersOf q.1 := by
      intro q hq
      exact emit_keeps_live_member w hi b x q.1 U (hconn q (List.mem_cons_of_mem _ hq)) hU
    obtain ⟨calls2, g1, g2⟩ := ih (Signal_.emit b x w).2 hi1 hU1 hconn1
    refine ⟨calls1 ++ calls2, ?_, ?_⟩
    · simp only [emitAll]
      rw [g1, h4, List.append_assoc]
    · rw [callsOf_append, h5, List.length_append, g2]
      simp [Nat.add_comm]

theorem emitAll_expired (w : World) (U : Addr) (bs : List (Addr × Int))
    (hU : w.observerExpired U = true) :
    ∃ calls : List Call, (emitAll bs w).log = w.log ++ calls ∧ callsOf U calls = [] := by
  induction bs generalizing w with
  | nil => exact ⟨[], by simp [emitAll, callsOf]⟩
  | cons p rest ih =>
    obtain ⟨b, x⟩ := p
    obtain ⟨calls1, h1, h2⟩ := emit_log w b x
    have hU1 : (Signal_.emit b x w).2.observerExpired U = true := by
      rw [emit_observerExpired]; exact hU
    obtain ⟨calls2, g1, g2⟩ := ih (Signal_.emit b x w).2 hU1
    refine ⟨calls1 ++ calls2, ?_, ?_⟩
    · simp only [emitAll]
      rw [g1, h1, List.append_assoc]
    · rw [callsOf_append, g2, List.append_nil]
      unfold callsOf
      rw [List.filter_eq_nil_iff]
      intro c hc hco
      simp only [decide_eq_true_eq] at hco
      have := (h2 c hc).2.1
      rw [hco, hU] at this
      cases this

/-- C7: in a reachable state, when a live observer `U` is in the observer set of every
listed signal, emitting each listed signal once appends calls of which exactly as many as
there are listed signals go to `U`; when `U` is destroyed first, none goes to `U`. -/
theorem observer_of_many_signals_call_count (w : World) (hw : Reachable w) (U : Addr)
    (bs : List (Addr × Int)) (hU : w.observerExpired U = false)
    (hconn : ∀ b ∈ bs, U ∈ w.observersOf b.1) :
    (∃ calls : List Call, (emitAll bs w).log = w.log ++ calls ∧
      (callsOf U calls).length = bs.length) ∧
    (∃ calls : List Call,
      (emitAll bs (SignalObserver.destroy ⟨some U⟩ w)).log
        = (SignalObserver.destroy ⟨some U⟩ w).log ++ calls ∧
      callsOf U calls = []) :=
  ⟨emitAll_count w (reachable_inv hw) U bs hU hconn,
   emitAll_expired _ U bs (destroyObserver_expired w U)⟩

/-- C7, on the state of case 4 of `main` with three signals: three emissions, three calls. -/
theorem observer_of_many_signals_call_count_witness :
    Reachable (run threeSignals World.empty) ∧
    (run threeSignals World.empty).observerExpired 0 = false ∧
    (∀ b ∈ [((0 : Addr), (4 : Int)), (1, 4), (2, 4)],
      0 ∈ (run threeSignals World.empty).observersOf b.1) ∧
    (∃ calls : List Call,
      (emitAll [(0, 4), (1, 4), (2, 4)] (run threeSignals World.empty)).log
        = (run threeSignals World.empty).log ++ calls ∧
      (callsOf 0 calls).length = 3) :=
  ⟨⟨threeSignals, rfl⟩, by decide, by decide,
   (observer_of_many_signals_call_count (run threeSignals World.empty) ⟨threeSignals, rfl⟩ 0
      [(0, 4), (1, 4), (2, 4)] (by decide) (by decide)).1⟩

/-! ## Sweeping of expired entries -/

theorem mapAt_mapErase (k k2 : String) (m : List (String × Addr)) :
    mapAt k (mapErase k2 m) = if k = k2 then none else mapAt k m := by
  induction m with
  | nil => simp [mapErase, mapAt]
  | cons p m ih =>
    obtain ⟨k3, v⟩ := p
    unfold mapErase at ih ⊢
    by_cases h3 : k3 = k2
    · subst h3
      simp only [List.filter_cons, ne_eq, not_true_eq_false, decide_False, Bool.false_eq_true,
        if_false]
      rw [ih]
      by_cases hk : k = k3
      · simp [hk]
      · have hk2 : ¬ k3 = k := fun e => hk e.symm
        simp [hk, hk2, mapAt]
    · simp only [List.filter_cons, ne_eq, h3, not_false_eq_true, decide_True, if_true, mapAt]
      rw [ih]
      by_cases hk : k3 = k
      · subst hk
        simp [h3]
      · simp [hk]

theorem mapAt_eraseKeys_of_mem (k : String) (ks : List String) (m : List (String × Addr))
    (h : k ∈ ks) : mapAt k (eraseKeys ks m) = none := by
  unfold eraseKeys
  induction ks generalizing m with
  | nil => simp at h
  | cons k2 ks ih =>
    rw [List.foldl_cons]
    by_cases hk : k ∈ ks
    · exact ih _ hk
    · have hk2 : k = k2 := by
        rcases List.mem_cons.1 h with e | e
        · exact e
        · exact absurd e hk
      subst hk2
      have hnone : ∀ (l : List String) (m2 : List (String × Addr)), mapAt k m2 = none →
          mapAt k (List.foldl (fun acc k => mapErase k acc) m2 l) = none := by
        intro l
        induction l with
        | nil => intro m2 h2; exact h2
        | cons k3 l ih2 =>
          intro m2 h2
          rw [List.foldl_cons]
          apply ih2
          rw [mapAt_mapErase, h2]
          simp
      apply hnone
      rw [mapAt_mapErase]
      simp

theorem mem_expiredKeys (isExpired : Addr → Bool) (k : String) (a : Addr)
    (m : List (String × Addr)) (h : mapAt k m = some a) (he : isExpired a = true) :
    k ∈ expiredKeys isExpired m := by
  induction m with
  | nil => simp [mapAt] at h
  | cons p m ih =>
    obtain ⟨k3, v⟩ := p
    unfold expiredKeys at ih ⊢
    simp only [mapAt] at h
    by_cases hk : k3 = k
    · simp only [hk, if_true, Option.some.injEq] at h
      subst h
      simp [List.filter_cons, he, hk]
    · simp only [hk, if_false] at h
      have := ih h
      rw [List.filter_cons]
      split_ifs
      · exact List.mem_cons_of_mem _ this
      · exact this

theorem mapAt_mapInsert_of_some (k k2 : String) (v a : Addr) (m : List (String × Addr))
    (h : mapAt k m = some a) : mapAt k (mapInsert k2 v m) = some a := by
  unfold mapInsert
  split
  · exact h
  · have happ : ∀ (m2 : List (String × Addr)), mapAt k m2 = some a →
        mapAt k (m2 ++ [(k2, v)]) = some a := by
      intro m2
      induction m2 with
      | nil => intro h2; simp [mapAt] at h2
      | cons p m2 ih =>
        obtain ⟨k3, v3⟩ := p
        intro h2
        simp only [List.cons_append, mapAt] at h2 ⊢
        split_ifs with hk
        · simpa [hk] using h2
        · simp only [hk, if_false] at h2
          exact ih h2
    exact happ m h

theorem tracker_lt_of_ne (w : World) (R : Nat) (h : w.tracker R ≠ ⟨[], []⟩) :
    R < w.trackers.length := by
  by_contra hn
  apply h
  unfold World.tracker
  rw [List.getD_eq_getElem?_getD, List.getElem?_eq_none (Nat.le_of_not_lt hn)]
  rfl

theorem tracker_lt_of_signal (w : World) (R : Nat) (n : String) (a : Addr)
    (h : mapAt n (w.tracker R).mSignals = some a) : R < w.trackers.length := by
  apply tracker_lt_of_ne
  intro e
  rw [e] at h
  simp [mapAt] at h

theorem tracker_lt_of_observer (w : World) (R : Nat) (n : String) (a : Addr)
    (h : mapAt n (w.tracker R).mObservers = some a) : R < w.trackers.length := by
  apply tracker_lt_of_ne
  intro e
  rw [e] at h
  simp [mapAt] at h

theorem tracker_set (ts : List SignalTracker) (t : Nat) (tr : SignalTracker)
    (h : t < ts.length) : (ts.set t tr).getD t ⟨[], []⟩ = tr := by
  rw [List.getD_eq_getElem?_getD, List.getElem?_set_self h]
  rfl

theorem garbageCollection_tracker (w : World) (R : Nat) (h : R < w.trackers.length) :
    (garbageCollection R w).tracker R =
      { mSignals := eraseKeys (expiredKeys w.signalExpired (w.tracker R).mSignals)
          (w.tracker R).mSignals
        mObservers := eraseKeys (expiredKeys w.observerExpired (w.tracker R).mObservers)
          (w.tracker R).mObservers } := by
  unfold garbageCollection World.tracker
  exact tracker_set _ _ _ h

theorem garbageCollection_sweeps_signal (w : World) (R : Nat) (n : String) (a : Addr)
    (h : mapAt n (w.tracker R).mSignals = some a) (he : w.signalExpired a = true) :
    mapAt n ((garbageCollection R w).tracker R).mSignals = none := by
  rw [garbageCollection_tracker w R (tracker_lt_of_signal w R n a h)]
  exact mapAt_eraseKeys_of_mem n _ _ (mem_expiredKeys _ n a _ h he)

theorem garbageCollection_sweeps_observer (w : World) (R : Nat) (n : String) (a : Addr)
    (h : mapAt n (w.tracker R).mObservers = some a) (he : w.observerExpired a = true) :
    mapAt n ((garbageCollection R w).tracker R).mObservers = none := by
  rw [garbageCollection_tracker w R (tracker_lt_of_observer w R n a h)]
  exact mapAt_eraseKeys_of_mem n _ _ (mem_expiredKeys _ n a _ h he)

theorem signalExpired_of_dead (w : World) (a : Addr) (c : Signal_)
    (h : w.signals[a]? = some c) (hd : c.alive = false) : w.signalExpired a = true := by
  simp [World.signalExpired, h, hd]

theorem observerExpired_of_dead (w : World) (a : Addr) (c : SignalObserver_)
    (h : w.observers[a]? = some c) (hd : c.alive = false) : w.observerExpired a = true := by
  simp [World.observerExpired, h, hd]

theorem getElem?_append_of_some {α : Type} (l l2 : List α) (a : Nat) (c : α)
    (h : l[a]? = some c) : (l ++ l2)[a]? = some c := by
  have hl : a < l.length := by
    by_contra hn
    rw [List.getElem?_eq_none (Nat.le_of_not_lt hn)] at h
    cases h
  rw [List.getElem?_append_left hl]
  exact h

theorem declareSignal_sweeps_signal (w : World) (R : Nat) (n name : String)
    (h : DeadSignalEntry w R n) :
    mapAt n ((declareSignal R name w).2.tracker R).mSignals = none := by
  obtain ⟨a, c, h1, h2, h3⟩ := h
  have hR := tracker_lt_of_signal w R n a h1
  unfold declareSignal
  apply garbageCollection_sweeps_signal _ R n a
  · simp only [World.tracker]
    rw [tracker_set _ _ _ hR]
    exact mapAt_mapInsert_of_some n name _ a _ h1
  · exact signalExpired_of_dead _ a c (getElem?_append_of_some _ _ a c h2) h3

theorem declareSignalObserver_sweeps_signal (w : World) (R : Nat) (n name : String)
    (cb : Callback) (h : DeadSignalEntry w R n) :
    mapAt n ((declareSignalObserver R name cb w).2.tracker R).mSignals = none := by
  obtain ⟨a, c, h1, h2, h3⟩ := h
  have hR := tracker_lt_of_signal w R n a h1
  unfold declareSignalObserver
  apply garbageCollection_sweeps_signal _ R n a
  · simp only [World.tracker]
    rw [tracker_set _ _ _ hR]
    exact h1
  · exact signalExpired_of_dead _ a c h2 h3

theorem declareSignal_sweeps_observer (w : World) (R : Nat) (n name : String)
    (h : DeadObserverEntry w R n) :
    mapAt n ((declareSignal R name w).2.tracker R).mObservers = none := by
  obtain ⟨a, c, h1, h2, h3⟩ := h
  have hR := tracker_lt_of_observer w R n a h1
  unfold declareSignal
  apply garbageCollection_sweeps_observer _ R n a
  · simp only [World.tracker]
    rw [tracker_set _ _ _ hR]
    exact h1
  · exact observerExpired_of_dead _ a c h2 h3

theorem declareSignalObserver_sweeps_observer (w : World) (R : Nat) (n name : String)
    (cb : Callback) (h : DeadObserverEntry w R n) :
    mapAt n ((declareSignalObserver R name cb w).2.tracker R).mObservers = none := by
  obtain ⟨a, c, h1, h2, h3⟩ := h
  have hR := tracker_lt_of_observer w R n a h1
  unfold declareSignalObserver
  apply garbageCollection_sweeps_observer _ R n a
  · simp only [World.tracker]
    rw [tracker_set _ _ _ hR]
    exact mapAt_mapInsert_of_some n name _ a _ h1
  · exact observerExpired_of_dead _ a c (getElem?_append_of_some _ _ a c h2) h3

theorem connect_ok_form (w : World) (R O : Nat) (s o : String)
    (h : (connect R s o O w).1 = Outcome.ok) :
    ∃ E U : Addr, (connect R s o O w).2 =
      garbageCollection R (w.setObserversOf E (setInsert U (w.observersOf E))) := by
  cases hE : mapAt s (w.tracker O).mSignals with
  | none => simp [connect, hE] at h
  | some E =>
    cases hEl : w.signalExpired E with
    | true => simp [connect, hE, hEl] at h
    | false =>
      cases hU : mapAt o (w.tracker R).mObservers with
      | none => simp [connect, hE, hEl, hU] at h
      | some U =>
        cases hUl : w.observerExpired U with
        | true => simp [connect, hE, hEl, hU, hUl] at h
        | false =>
          rw [connect_ok w R O s o E U hE hEl hU hUl]
          exact ⟨E, U, rfl⟩

theorem connect_sweeps_signal (w : World) (R O : Nat) (n s o : String)
    (h : DeadSignalEntry w R n) (hok : (connect R s o O w).1 = Outcome.ok) :
    mapAt n ((connect R s o O w).2.tracker R).mSignals = none := by
  obtain ⟨a, c, h1, h2, h3⟩ := h
  obtain ⟨E, U, hc⟩ := connect_ok_form w R O s o hok
  rw [hc]
  apply garbageCollection_sweeps_signal _ R n a
  · exact h1
  · rw [setObserversOf_signalExpired]
    exact signalExpired_of_dead _ a c h2 h3

theorem connect_sweeps_observer (w : World) (R O : Nat) (n s o : String)
    (h : DeadObserverEntry w R n) (hok : (connect R s o O w).1 = Outcome.ok) :
    mapAt n ((connect R s o O w).2.tracker R).mObservers = none := by
  obtain ⟨a, c, h1, h2, h3⟩ := h
  obtain ⟨E, U, hc⟩ := connect_ok_form w R O s o hok
  rw [hc]
  apply garbageCollection_sweeps_observer _ R n a
  · exact h1
  · rw [setObserversOf_observerExpired]
    exact observerExpired_of_dead _ a c h2 h3

/-- C8 as stated fails: registry 0 has an entry under "n" whose `Signal_` is destroyed;
registry 1 then connects to registry 0 by the names "m" and "o", which succeeds, and
registry 0 still has its entry under "n". -/
theorem connect_leaves_other_registry_unswept :
    DeadSignalEntry staleOther 0 "n" ∧
    (connect 1 "m" "o" 0 staleOther).1 = Outcome.ok ∧
    mapAt "n" ((connect 1 "m" "o" 0 staleOther).2.tracker 0).mSignals = some 0 :=
  ⟨⟨0, ⟨false, []⟩, by decide, by decide, rfl⟩, by decide, by decide⟩

/-- C8, amended: when the entry of registry `R` under `n` refers to a destroyed endpoint,
that entry is gone after the next `declareSignal` or `declareSignalObserver` on `R` and after
the next `connect` that `R` itself calls and that ends normally; and until then every
`connect` that looks `n` up in that map of `R` fails and changes nothing. -/
theorem dead_entry_swept_by_own_calls (w : World) (R : Nat) (n : String) :
    (DeadSignalEntry w R n →
      (∀ name, mapAt n ((declareSignal R name w).2.tracker R).mSignals = none) ∧
      (∀ name cb, mapAt n ((declareSignalObserver R name cb w).2.tracker R).mSignals = none) ∧
      (∀ s o O, (connect R s o O w).1 = Outcome.ok →
        mapAt n ((connect R s o O w).2.tracker R).mSignals = none) ∧
      (∀ caller o, (connect caller n o R w).1 = Outcome.assertFailed ∧
        (connect caller n o R w).2 = w)) ∧
    (DeadObserverEntry w R n →
      (∀ name, mapAt n ((declareSignal R name w).2.tracker R).mObservers = none) ∧
      (∀ name cb,
        mapAt n ((declareSignalObserver R name cb w).2.tracker R).mObservers = none) ∧
      (∀ s o O, (connect R s o O w).1 = Outcome.ok →
        mapAt n ((connect R s o O w).2.tracker R).mObservers = none) ∧
      (∀ s O, (connect R s n O w).1 ≠ Outcome.ok ∧ (connect R s n O w).2 = w)) := by
  constructor
  · intro h
    refine ⟨fun name => declareSignal_sweeps_signal w R n name h,
      fun name cb => declareSignalObserver_sweeps_signal w R n name cb h,
      fun s o O hok => connect_sweeps_signal w R O n s o h hok, ?_⟩
    obtain ⟨a, c, h1, h2, h3⟩ := h
    intro caller o
    simp [connect, h1, signalExpired_of_dead w a c h2 h3]
  · intro h
    refine ⟨fun name => declareSignal_sweeps_observer w R n name h,
      fun name cb => declareSignalObserver_sweeps_observer w R n name cb h,
      fun s o O hok => connect_sweeps_observer w R O n s o h hok, ?_⟩
    obtain ⟨a, c, h1, h2, h3⟩ := h
    intro s O
    have he := observerExpired_of_dead w a c h2 h3
    cases hE : mapAt s (w.tracker O).mSignals with
    | none => simp [connect, hE]
    | some E =>
      cases hEl : w.signalExpired E with
      | true => simp [connect, hE, hEl]
      | false => simp [connect, hE, hEl, h1, he]

/-- C8, amended, on a registry with a destroyed signal under "n": the hypothesis holds and
the next mint on that registry removes the entry. -/
theorem dead_entry_swept_by_own_calls_witness :
    DeadSignalEntry staleOther 0 "n" ∧
    mapAt "n" ((declareSignal 0 "k" staleOther).2.tracker 0).mSignals = none ∧
    (connect 1 "n" "o" 0 staleOther).1 = Outcome.assertFailed :=
  have hd : DeadSignalEntry staleOther 0 "n" := ⟨0, ⟨false, []⟩, by decide, by decide, rfl⟩
  ⟨hd, ((dead_entry_swept_by_own_calls staleOther 0 "n").1 hd).1 "k",
   (((dead_entry_swept_by_own_calls staleOther 0 "n").1 hd).2.2.2 1 "o").1⟩

/-! ## Copies of application objects -/

theorem emit_of_empty (w : World) (sig : Addr) (x : Int) (h : w.observersOf sig = []) :
    Signal_.emit sig x w = (Outcome.ok, w) := by
  unfold Signal_.emit
  rw [h]
  simp only [emitLoop, eraseObservers, List.foldl_nil, List.append_nil]
  rw [← h]
  exact congrArg (Prod.mk Outcome.ok) (setObserversOf_self w sig)

theorem emit_nonmember_none (w : World) (sig : Addr) (x : Int) (a : Addr)
    (ha : a ∉ w.observersOf sig) (calls : List Call)
    (h : (Signal_.emit sig x w).2.log = w.log ++ calls) : callsOf a calls = [] := by
  obtain ⟨new, h1, h2⟩ := emit_log w sig x
  rw [h1] at h
  have hc : new = calls := List.append_cancel_left h
  subst hc
  unfold callsOf
  rw [List.filter_eq_nil_iff]
  intro c hc hco
  simp only [decide_eq_true_eq] at hco
  exact ha (hco ▸ (h2 c hc).1)

theorem observersOf_of_ge (w : World) (sig : Addr) (h : w.signals.length ≤ sig) :
    w.observersOf sig = [] := by
  unfold World.observersOf
  rw [List.getElem?_eq_none h]

theorem newTracker_tracker (w : World) :
    (newTracker w).2.tracker (newTracker w).1 = ⟨[], []⟩ := by
  simp [newTracker, World.tracker, List.getD_eq_getElem?_getD]

theorem B_new_world (w : World) :
    (B.new w).2 = (declareSignal w.trackers.length "somethingDone" (newTracker w).2).2 := rfl

theorem declareSignal_tracker_fresh (w : World) (t : Nat) (name : String)
    (ht : t < w.trackers.length) (he : w.tracker t = ⟨[], []⟩) :
    (declareSignal t name w).2.tracker t = ⟨[], [(name, w.signals.length)]⟩ := by
  unfold declareSignal
  simp only []
  rw [garbageCollection_tracker _ _ (by simpa using ht)]
  simp only [World.tracker] at he ⊢
  rw [tracker_set _ _ _ ht, he]
  simp [mapInsert, mapAt, expiredKeys, eraseKeys, World.signalExpired]

theorem declareSignalObserver_tracker_fresh (w : World) (t : Nat) (name : String)
    (cb : Callback) (ht : t < w.trackers.length) (he : w.tracker t = ⟨[], []⟩) :
    (declareSignalObserver t name cb w).2.tracker t
      = ⟨[(name, w.observers.length)], []⟩ := by
  unfold declareSignalObserver
  simp only []
  rw [garbageCollection_tracker _ _ (by simpa using ht)]
  simp only [World.tracker] at he ⊢
  rw [tracker_set _ _ _ ht, he]
  simp [mapInsert, mapAt, expiredKeys, eraseKeys, World.observerExpired]

theorem B_new_tracker (w : World) :
    (B.new w).2.tracker (B.new w).1.tracker = ⟨[], [("somethingDone", w.signals.length)]⟩ :=
  declareSignal_tracker_fresh (newTracker w).2 w.trackers.length "somethingDone"
    (by simp [newTracker]) (newTracker_tracker w)

theorem P_new_world (w : World) :
    (P.new w).2.2 = (declareSignalObserver w.trackers.length "somethingDone"
      (some w.trackers.length) (newTracker w).2).2 := rfl

theorem P_new_tracker (w : World) :
    (P.new w).2.2.tracker (P.new w).2.1.tracker
      = ⟨[("somethingDone", w.observers.length)], []⟩ :=
  declareSignalObserver_tracker_fresh (newTracker w).2 w.trackers.length "somethingDone"
    (some w.trackers.length) (by simp [newTracker]) (newTracker_tracker w)

/-- C9: in a reachable state where the observer `U` of `P1` is alive and attached to the
signal `E` of `B1`, the copy of `B1` has a new registry that holds only its own new signal,
whose observer set is empty: `doSomething(x)` on the copy calls nothing and changes nothing,
while on `B1` it still calls `U` exactly once.  The copy of `P1` has a new registry that
holds only its own new observer: `emit(x)` on `E` calls `U` once and the copy's observer not
at all. -/
theorem copy_is_fresh_and_unconnected (w : World) (hw : Reachable w) (B1 : B) (P1 : P)
    (E U : Addr) (x : Int)
    (hB : B1.sigDidSomething = ⟨some E⟩) (_hP : P1.somethingDoneObserver = ⟨some U⟩)
    (hconn : U ∈ w.observersOf E) (hU : w.observerExpired U = false) :
    ((newTracker w).2.tracker (newTracker w).1 = ⟨[], []⟩ ∧
     (B.copy B1 w).1.sigDidSomething = ⟨some w.signals.length⟩ ∧
     (B.copy B1 w).2.tracker (B.copy B1 w).1.tracker
       = ⟨[], [("somethingDone", w.signals.length)]⟩ ∧
     (B.copy B1 w).2.observersOf w.signals.length = [] ∧
     (B.copy B1 w).1.doSomething x (B.copy B1 w).2 = (Outcome.ok, (B.copy B1 w).2) ∧
     ∃ (c : SignalObserver_) (f : Nat) (calls : List Call),
       w.lockObserver U = some c ∧ c.mStoredFunction = some f ∧
       (B1.doSomething x (B.copy B1 w).2).2.log = (B.copy B1 w).2.log ++ calls ∧
       callsOf U calls = [⟨U, f, x⟩]) ∧
    ((P.copy P1 w).1 = Outcome.ok ∧
     (P.copy P1 w).2.1.somethingDoneObserver = ⟨some w.observers.length⟩ ∧
     (P.copy P1 w).2.2.tracker (P.copy P1 w).2.1.tracker
       = ⟨[("somethingDone", w.observers.length)], []⟩ ∧
     (P.copy P1 w).2.2.observerExpired w.observers.length = false ∧
     w.observers.length ≠ U ∧
     ∃ (c : SignalObserver_) (f : Nat) (calls : List Call),
       w.lockObserver U = some c ∧ c.mStoredFunction = some f ∧
       (Signal_.emit E x (P.copy P1 w).2.2).2.log = (P.copy P1 w).2.2.log ++ calls ∧
       callsOf U calls = [⟨U, f, x⟩] ∧ callsOf w.observers.length calls = []) := by
  have hi := reachable_inv hw
  have hUlt := observerExpired_lt w U hU
  constructor
  · have hiB : Inv (B.copy B1 w).2 := inv_resetSignal (inv_newTracker hi) _ _ _
    have hobs : ∀ sig, (B.copy B1 w).2.observersOf sig = w.observersOf sig := by
      intro sig
      show (B.new w).2.observersOf sig = _
      rw [B_new_world, declareSignal_observersOf]
      rfl
    have hempty : (B.copy B1 w).2.observersOf w.signals.length = [] := by
      rw [hobs]; exact observersOf_of_ge w _ (Nat.le_refl _)
    refine ⟨newTracker_tracker w, rfl, B_new_tracker w, hempty, ?_, ?_⟩
    · exact emit_of_empty _ _ x hempty
    · have hconn2 : U ∈ (B.copy B1 w).2.observersOf E := by rw [hobs]; exact hconn
      have hU2 : (B.copy B1 w).2.observerExpired U = false := hU
      obtain ⟨c, f, calls, h1, h2, _, h4, h5⟩ := emit_member_once _ hiB E x U hconn2 hU2
      refine ⟨c, f, calls, h1, h2, ?_, h5⟩
      unfold B.doSomething
      rw [hB]
      exact h4
  · have hiP : Inv (P.copy P1 w).2.2 := inv_resetObserver (inv_newTracker hi) _ _ _ _
    have hobservers : (P.copy P1 w).2.2.observers
        = w.observers ++ [⟨true, some w.trackers.length⟩] := rfl
    have hnew : (P.copy P1 w).2.2.observerExpired w.observers.length = false := by
      unfold World.observerExpired
      rw [hobservers]
      simp
    have hU2 : (P.copy P1 w).2.2.observerExpired U = false := by
      obtain ⟨c, hc, hal⟩ := (observerExpired_eq_false w U).1 hU
      apply (observerExpired_eq_false _ U).2
      exact ⟨c, by rw [hobservers]; exact getElem?_append_of_some _ _ U c hc, hal⟩
    have hlock : (P.copy P1 w).2.2.lockObserver U = w.lockObserver U := by
      unfold World.lockObserver
      rw [hobservers, List.getElem?_append_left hUlt]
    have hconn2 : U ∈ (P.copy P1 w).2.2.observersOf E := hconn
    have hfresh : w.observers.length ∉ (P.copy P1 w).2.2.observersOf E := by
      intro hm
      exact Nat.lt_irrefl _ (hi.bounded E _ hm)
    obtain ⟨c, f, calls, h1, h2, _, h4, h5⟩ := emit_member_once _ hiP E x U hconn2 hU2
    refine ⟨rfl, rfl, P_new_tracker w, hnew, Nat.ne_of_gt hUlt, c, f, calls, ?_, h2, h4, h5,
      emit_nonmember_none _ E x _ hfresh calls h4⟩
    rw [← hlock]; exact h1

/-- C9, on the state of cases 5 and 6 of `main`: the hypotheses hold, the copy of `B` calls
nothing, and `B` itself still calls the observer. -/
theorem copy_is_fresh_and_unconnected_witness :
    Reachable (run connectedPair World.empty) ∧
    (0 : Addr) ∈ (run connectedPair World.empty).observersOf 0 ∧
    (run connectedPair World.empty).observerExpired 0 = false ∧
    (B.copy ⟨0, ⟨some 0⟩⟩ (run connectedPair World.empty)).1.doSomething 5
        (B.copy ⟨0, ⟨some 0⟩⟩ (run connectedPair World.empty)).2
      = (Outcome.ok, (B.copy ⟨0, ⟨some 0⟩⟩ (run connectedPair World.empty)).2) ∧
    (P.copy ⟨1, ⟨some 0⟩⟩ (run connectedPair World.empty)).1 = Outcome.ok :=
  have h := copy_is_fresh_and_unconnected (run connectedPair World.empty)
    ⟨connectedPair, rfl⟩ ⟨0, ⟨some 0⟩⟩ ⟨1, ⟨some 0⟩⟩ 0 0 5 rfl rfl (by decide) (by decide)
  ⟨⟨connectedPair, rfl⟩, by decide, by decide, h.1.2.2.2.2.1, h.2.1⟩

/-! ## Empty callables -/

/-- C10: `resetObserver` and the constructor of `SignalObserver` fail on an empty callable
before anything is declared: the state is unchanged and the handle keeps the endpoint it
had; hence in every state a program reaches, every live `SignalObserver_` stores a
non-empty function. -/
theorem empty_callback_is_rejected (self : SignalObserver) (t : Nat) (name : String)
    (w : World) (ops : List Op) (a : Addr) (c : SignalObserver_) :
    SignalObserver.resetObserver self t name none w = (Outcome.assertFailed, self, w) ∧
    SignalObserver.new t name none w = (Outcome.assertFailed, ⟨none⟩, w) ∧
    (step (Op.newObserver t name none) w).1 ≠ Outcome.ok ∧
    (step (Op.newObserver t name none) w).2 = w ∧
    (∀ h, (step (Op.resetObserver h t name none) w).1 ≠ Outcome.ok ∧
      (step (Op.resetObserver h t name none) w).2 = w) ∧
    ((run ops World.empty).lockObserver a = some c → c.mStoredFunction ≠ none) := by
  refine ⟨rfl, rfl, ?_, ?_, ?_, ?_⟩
  · simp only [step]
    split_ifs <;> simp [SignalObserver.new, SignalObserver.resetObserver]
  · simp only [step]
    split_ifs <;> simp [SignalObserver.new, SignalObserver.resetObserver]
  · intro h
    simp only [step]
    split_ifs <;> simp [SignalObserver.resetObserver]
  · intro hl
    have hi : Inv (run ops World.empty) := inv_run ops inv_empty
    exact hi.callable a c ((lockObserver_eq_some _ a c).1 hl).1

/-- C10, on the state of case 1 of `main`: the live observer there stores a non-empty
function, and a reset with an empty callable leaves its handle and the state alone. -/
theorem empty_callback_is_rejected_witness :
    (run oneOfEach World.empty).lockObserver 0 = some ⟨true, some 1⟩ ∧
    (some 1 : Callback) ≠ none ∧
    SignalObserver.resetObserver ⟨some 0⟩ 1 "somethingDone" none (run oneOfEach World.empty)
      = (Outcome.assertFailed, ⟨some 0⟩, run oneOfEach World.empty) :=
  have h := empty_callback_is_rejected ⟨some 0⟩ 1 "somethingDone" (run oneOfEach World.empty)
    oneOfEach 0 ⟨true, some 1⟩
  ⟨by decide, h.2.2.2.2.2 (by decide), h.1⟩

/-! ## Lemmas on the maps -/

theorem mapAt_eraseKeys (k : String) (ks : List String) (m : List (String × Addr)) :
    mapAt k (eraseKeys ks m) = if k ∈ ks then none else mapAt k m := by
  unfold eraseKeys
  induction ks generalizing m with
  | nil => simp
  | cons k2 ks ih =>
    rw [List.foldl_cons, ih, mapAt_mapErase]
    by_cases h1 : k ∈ ks
    · simp [h1]
    · by_cases h2 : k = k2
      · simp [h2]
      · simp [h1, h2]

theorem mem_expiredKeys_iff (isExpired : Addr → Bool) (k : String)
    (m : List (String × Addr)) :
    k ∈ expiredKeys isExpired m ↔ ∃ a, (k, a) ∈ m ∧ isExpired a = true := by
  unfold expiredKeys
  simp [List.mem_map, List.mem_filter]

theorem mapAt_mem (k : String) (a : Addr) (m : List (String × Addr))
    (h : mapAt k m = some a) : (k, a) ∈ m := by
  induction m with
  | nil => simp [mapAt] at h
  | cons p m ih =>
    obtain ⟨k3, v⟩ := p
    simp only [mapAt] at h
    by_cases hk : k3 = k
    · simp only [hk, if_true, Option.some.injEq] at h
      simp [hk, h]
    · simp only [hk, if_false] at h
      exact List.mem_cons_of_mem _ (ih h)

theorem mapAt_eq_none (k : String) (m : List (String × Addr)) (h : mapAt k m = none) :
    k ∉ m.map Prod.fst := by
  induction m with
  | nil => simp
  | cons p m ih =>
    obtain ⟨k3, v⟩ := p
    simp only [mapAt] at h
    by_cases hk : k3 = k
    · simp [hk] at h
    · simp only [hk, if_false] at h
      simp only [List.map_cons, List.mem_cons, not_or]
      exact ⟨fun e => hk e.symm, ih h⟩

theorem mapAt_of_mem (k : String) (a : Addr) (m : List (String × Addr))
    (hn : (m.map Prod.fst).Nodup) (h : (k, a) ∈ m) : mapAt k m = some a := by
  induction m with
  | nil => simp at h
  | cons p m ih =>
    obtain ⟨k3, v⟩ := p
    rw [List.map_cons, List.nodup_cons] at hn
    simp only [mapAt]
    rcases List.mem_cons.1 h with e | e
    · cases e
      simp
    · have hk : ¬ k3 = k := by
        intro e2
        apply hn.1
        rw [e2]
        exact List.mem_map.2 ⟨(k, a), e, rfl⟩
      simp only [hk, if_false]
      exact ih hn.2 e

theorem eraseKeys_eq_filter (ks : List String) (m : List (String × Addr)) :
    eraseKeys ks m = m.filter (fun p => decide (p.1 ∉ ks)) := by
  unfold eraseKeys
  induction ks generalizing m with
  | nil => simp
  | cons k ks ih =>
    rw [List.foldl_cons, ih]
    unfold mapErase
    rw [List.filter_filter]
    apply List.filter_congr
    intro p _
    simp [Bool.and_comm]

theorem sweep_eq_filter (isExpired : Addr → Bool) (m : List (String × Addr))
    (hn : (m.map Prod.fst).Nodup) :
    sweep isExpired m = m.filter (fun p => !isExpired p.2) := by
  unfold sweep
  rw [eraseKeys_eq_filter]
  apply List.filter_congr
  intro p hp
  obtain ⟨k, a⟩ := p
  cases he : isExpired a with
  | true =>
    have : k ∈ expiredKeys isExpired m := (mem_expiredKeys_iff isExpired k m).2 ⟨a, hp, he⟩
    simp [this]
  | false =>
    have : k ∉ expiredKeys isExpired m := by
      intro hk
      obtain ⟨b, hb, hbe⟩ := (mem_expiredKeys_iff isExpired k m).1 hk
      have h1 := mapAt_of_mem k a m hn hp
      have h2 := mapAt_of_mem k b m hn hb
      rw [h1] at h2
      cases h2
      rw [he] at hbe
      cases hbe
    simp [this]

theorem sweep_keys_nodup (isExpired : Addr → Bool) (m : List (String × Addr))
    (hn : (m.map Prod.fst).Nodup) : ((sweep isExpired m).map Prod.fst).Nodup := by
  unfold sweep
  rw [eraseKeys_eq_filter]
  exact List.Nodup.sublist (List.Sublist.map _ (List.filter_sublist _)) hn

theorem mapInsert_keys_nodup (k : String) (v : Addr) (m : List (String × Addr))
    (hn : (m.map Prod.fst).Nodup) : ((mapInsert k v m).map Prod.fst).Nodup := by
  unfold mapInsert
  cases h : mapAt k m with
  | some a => exact hn
  | none =>
    simp only [List.map_append, List.map_cons, List.map_nil]
    rw [List.nodup_append]
    refine ⟨hn, by simp, ?_⟩
    intro x hx hx2
    have : x = k := by simpa using hx2
    subst this
    exact mapAt_eq_none x m h hx

/-! ## No registry holds a key twice -/

theorem getD_set (ts : List SignalTracker) (t t2 : Nat) (tr d : SignalTracker) :
    (ts.set t tr).getD t2 d = if t2 = t ∧ t < ts.length then tr else ts.getD t2 d := by
  rw [List.getD_eq_getElem?_getD, List.getD_eq_getElem?_getD, List.getElem?_set]
  by_cases h : t = t2
  · subst h
    by_cases hl : t < ts.length
    · simp [hl]
    · simp [hl, List.getElem?_eq_none (Nat.le_of_not_lt hl)]
  · have h2 : ¬ t2 = t := fun e => h e.symm
    simp [h, h2]

theorem uniqueKeys_of_trackers_eq {w v : World} (h : UniqueKeys w)
    (ht : v.trackers = w.trackers) : UniqueKeys v := by
  constructor
  · intro t
    have := h.signals t
    simpa [World.tracker, ht] using this
  · intro t
    have := h.observers t
    simpa [World.tracker, ht] using this

theorem uniqueKeys_of_trackers_set {w v : World} (h : UniqueKeys w) (t : Nat)
    (tr : SignalTracker) (ht : v.trackers = w.trackers.set t tr)
    (hs : (tr.mSignals.map Prod.fst).Nodup) (ho : (tr.mObservers.map Prod.fst).Nodup) :
    UniqueKeys v := by
  constructor
  · intro t2
    simp only [World.tracker, ht, getD_set]
    split_ifs
    · exact hs
    · exact h.signals t2
  · intro t2
    simp only [World.tracker, ht, getD_set]
    split_ifs
    · exact ho
    · exact h.observers t2

theorem uniqueKeys_empty : UniqueKeys World.empty :=
  ⟨fun t => by simp [World.tracker, World.empty], fun t => by simp [World.tracker, World.empty]⟩

theorem getD_append_default (ts : List SignalTracker) (t2 : Nat) :
    (ts ++ [(⟨[], []⟩ : SignalTracker)]).getD t2 ⟨[], []⟩ = ts.getD t2 ⟨[], []⟩ := by
  rw [List.getD_eq_getElem?_getD, List.getD_eq_getElem?_getD]
  rcases Nat.lt_trichotomy t2 ts.length with h | h | h
  · rw [List.getElem?_append_left h]
  · subst h
    simp
  · rw [List.getElem?_eq_none (Nat.le_of_lt h), List.getElem?_eq_none]
    simp; omega

theorem newTracker_tracker_eq (w : World) (t2 : Nat) :
    (newTracker w).2.tracker t2 = w.tracker t2 :=
  getD_append_default w.trackers t2

theorem uniqueKeys_newTracker {w : World} (h : UniqueKeys w) : UniqueKeys (newTracker w).2 :=
  ⟨fun t => by rw [newTracker_tracker_eq]; exact h.signals t,
   fun t => by rw [newTracker_tracker_eq]; exact h.observers t⟩

theorem uniqueKeys_garbageCollection {w : World} (h : UniqueKeys w) (t : Nat) :
    UniqueKeys (garbageCollection t w) :=
  uniqueKeys_of_trackers_set h t _ rfl (sweep_keys_nodup _ _ (h.signals t))
    (sweep_keys_nodup _ _ (h.observers t))

theorem uniqueKeys_declareSignal {w : World} (h : UniqueKeys w) (t : Nat) (name : String) :
    UniqueKeys (declareSignal t name w).2 := by
  unfold declareSignal
  apply uniqueKeys_garbageCollection
  exact uniqueKeys_of_trackers_set h t _ rfl (mapInsert_keys_nodup _ _ _ (h.signals t))
    (h.observers t)

theorem uniqueKeys_declareSignalObserver {w : World} (h : UniqueKeys w) (t : Nat)
    (name : String) (cb : Callback) : UniqueKeys (declareSignalObserver t name cb w).2 := by
  unfold declareSignalObserver
  apply uniqueKeys_garbageCollection
  exact uniqueKeys_of_trackers_set h t _ rfl (h.signals t)
    (mapInsert_keys_nodup _ _ _ (h.observers t))

theorem uniqueKeys_registerObserver {w : World} (h : UniqueKeys w) (sig o : Addr) :
    UniqueKeys (Signal_.registerObserver sig o w).2 := by
  unfold Signal_.registerObserver
  split_ifs
  · exact h
  · exact uniqueKeys_of_trackers_eq h rfl

theorem uniqueKeys_connect {w : World} (h : UniqueKeys w) (t : Nat) (s o : String)
    (other : Nat) : UniqueKeys (connect t s o other w).2 := by
  by_cases hok : (connect t s o other w).1 = Outcome.ok
  · obtain ⟨E, U, hc⟩ := connect_ok_form w t other s o hok
    rw [hc]
    have h1 : UniqueKeys (w.setObserversOf E (setInsert U (w.observersOf E))) :=
      uniqueKeys_of_trackers_eq h rfl
    exact uniqueKeys_garbageCollection h1 t
  · have hw : (connect t s o other w).2 = w := by
      cases hE : mapAt s (w.tracker other).mSignals with
      | none => simp [connect, hE]
      | some E =>
        cases hEl : w.signalExpired E with
        | true => simp [connect, hE, hEl]
        | false =>
          cases hU : mapAt o (w.tracker t).mObservers with
          | none => simp [connect, hE, hEl, hU]
          | some U =>
            cases hUl : w.observerExpired U with
            | true => simp [connect, hE, hEl, hU, hUl]
            | false =>
              rw [connect_ok w t other s o E U hE hEl hU hUl] at hok
              exact absurd rfl hok
    rw [hw]
    exact h

theorem uniqueKeys_resetSignal {w : World} (h : UniqueKeys w) (self : Signal) (t : Nat)
    (name : String) : UniqueKeys (Signal.resetSignal self t name w).2 := by
  unfold Signal.resetSignal
  split
  · exact uniqueKeys_of_trackers_eq (uniqueKeys_declareSignal h t name) rfl
  · exact uniqueKeys_declareSignal h t name

theorem uniqueKeys_resetObserver {w : World} (h : UniqueKeys w) (self : SignalObserver)
    (t : Nat) (name : String) (cb : Callback) :
    UniqueKeys (SignalObserver.resetObserver self t name cb w).2.2 := by
  unfold SignalObserver.resetObserver
  split
  · exact h
  · split
    · exact uniqueKeys_of_trackers_eq (uniqueKeys_declareSignalObserver h t name _) rfl
    · exact uniqueKeys_declareSignalObserver h t name _

theorem uniqueKeys_step {w : World} (h : UniqueKeys w) (op : Op) :
    UniqueKeys (step op w).2 := by
  cases op with
  | newTracker => exact uniqueKeys_newTracker h
  | newSignal t name =>
    simp only [step]; split_ifs
    · exact uniqueKeys_resetSignal h _ t name
    · exact h
  | resetSignal a t name =>
    simp only [step]; split_ifs
    · exact uniqueKeys_resetSignal h _ t name
    · exact h
  | emit a x =>
    simp only [step]; split_ifs
    · exact uniqueKeys_of_trackers_eq h (emit_trackers w a x)
    · exact h
  | destroySignal a =>
    simp only [step]; split_ifs
    · exact uniqueKeys_of_trackers_eq h rfl
    · exact h
  | newObserver t name cb =>
    simp only [step]; split_ifs
    · exact uniqueKeys_resetObserver h _ t name cb
    · exact h
  | resetObserver a t name cb =>
    simp only [step]; split_ifs
    · exact uniqueKeys_resetObserver h _ t name cb
    · exact h
  | connectDirect o s =>
    simp only [step]; split_ifs
    · exact uniqueKeys_registerObserver h s o
    · exact h
  | destroyObserver a =>
    simp only [step]; split_ifs
    · exact uniqueKeys_of_trackers_eq h rfl
    · exact h
  | connect t s o other =>
    simp only [step]; split_ifs
    · exact uniqueKeys_connect h t s o other
    · exact h

theorem uniqueKeys_run (ops : List Op) {w : World} (h : UniqueKeys w) :
    UniqueKeys (run ops w) := by
  induction ops generalizing w with
  | nil => exact h
  | cons op ops ih => exact ih (uniqueKeys_step h op)

theorem reachable_uniqueKeys {w : World} (h : Reachable w) : UniqueKeys w := by
  obtain ⟨ops, rfl⟩ := h
  exact uniqueKeys_run ops uniqueKeys_empty

/-! ## The mint operation and the empty callable -/

theorem mapAt_append_of_none (k : String) (m m2 : List (String × Addr))
    (h : mapAt k m = none) : mapAt k (m ++ m2) = mapAt k m2 := by
  induction m with
  | nil => rfl
  | cons p m ih =>
    obtain ⟨k3, v⟩ := p
    simp only [mapAt] at h
    by_cases hk : k3 = k
    · simp [hk] at h
    · simp only [hk, if_false] at h
      simp only [List.cons_append, mapAt, hk, if_false]
      exact ih h

theorem sweep_keeps_fresh (isExpired : Addr → Bool) (k : String) (v : Addr)
    (m : List (String × Addr)) (h : mapAt k m = none) (hv : isExpired v = false) :
    mapAt k (sweep isExpired (mapInsert k v m)) = some v := by
  have hm : mapInsert k v m = m ++ [(k, v)] := by simp [mapInsert, h]
  unfold sweep
  rw [mapAt_eraseKeys, hm, mapAt_append_of_none k m _ h]
  have hk : k ∉ expiredKeys isExpired (m ++ [(k, v)]) := by
    intro hmem
    obtain ⟨a, ha, hae⟩ := (mem_expiredKeys_iff isExpired k _).1 hmem
    rcases List.mem_append.1 ha with h1 | h1
    · exact mapAt_eq_none k m h (List.mem_map.2 ⟨(k, a), h1, rfl⟩)
    · have : a = v := by simpa using h1
      rw [this, hv] at hae
      cases hae
  simp [hk, mapAt]

theorem declareSignalObserver_entry (w : World) (t : Nat) (name : String) (cb : Callback)
    (ht : t < w.trackers.length) (hfree : mapAt name (w.tracker t).mObservers = none) :
    mapAt name ((declareSignalObserver t name cb w).2.tracker t).mObservers
      = some w.observers.length := by
  unfold declareSignalObserver
  simp only []
  rw [garbageCollection_tracker _ _ (by simpa using ht)]
  simp only [World.tracker] at hfree ⊢
  rw [tracker_set _ _ _ ht]
  apply sweep_keeps_fresh _ _ _ _ hfree
  simp [World.observerExpired]

/-- C11 as stated fails: on a registry without entries, `declareSignalObserver` with the
empty callable returns normally, allocates a live `SignalObserver_` that stores the empty
function, and adds the entry. -/
theorem declareSignalObserver_accepts_empty_callable :
    (declareSignalObserver 0 "n" none loneRegistry).1 = 0 ∧
    (declareSignalObserver 0 "n" none loneRegistry).2.observers = [⟨true, none⟩] ∧
    mapAt "n" ((declareSignalObserver 0 "n" none loneRegistry).2.tracker 0).mObservers
      = some 0 := by
  decide

/-- C11, amended: `declareSignalObserver` never inspects the callable.  For every callable,
the empty one included, it allocates a live `SignalObserver_` that stores it and, the name
being free, adds the entry that refers to it.  The empty callable is turned away one level
up: the constructor of `SignalObserver` and `resetObserver` fail on it with no endpoint
allocated and no entry added. -/
theorem mint_stores_any_callable (w : World) (t : Nat) (name : String) (cb : Callback)
    (ht : t < w.trackers.length) (hfree : mapAt name (w.tracker t).mObservers = none) :
    (declareSignalObserver t name cb w).1 = w.observers.length ∧
    (declareSignalObserver t name cb w).2.observers = w.observers ++ [⟨true, cb⟩] ∧
    (declareSignalObserver t name cb w).2.lockObserver w.observers.length
      = some ⟨true, cb⟩ ∧
    mapAt name ((declareSignalObserver t name cb w).2.tracker t).mObservers
      = some w.observers.length ∧
    (SignalObserver.new t name none w).1 = Outcome.assertFailed ∧
    (SignalObserver.new t name none w).2.2.observers = w.observers ∧
    mapAt name ((SignalObserver.new t name none w).2.2.tracker t).mObservers = none ∧
    (∀ self : SignalObserver,
      (SignalObserver.resetObserver self t name none w).1 = Outcome.assertFailed ∧
      (SignalObserver.resetObserver self t name none w).2.2.observers = w.observers ∧
      mapAt name ((SignalObserver.resetObserver self t name none w).2.2.tracker t).mObservers
        = none) := by
  refine ⟨rfl, rfl, ?_, declareSignalObserver_entry w t name cb ht hfree, rfl, rfl, hfree,
    fun self => ⟨rfl, rfl, hfree⟩⟩
  unfold World.lockObserver
  rw [declareSignalObserver_observers]
  simp

/-- C11, amended, on a registry without entries: the hypotheses hold, the mint with the
empty callable stores it, and the constructor of the handle fails. -/
theorem mint_stores_any_callable_witness :
    0 < loneRegistry.trackers.length ∧
    mapAt "n" (loneRegistry.tracker 0).mObservers = none ∧
    (declareSignalObserver 0 "n" none loneRegistry).2.lockObserver loneRegistry.observers.length
      = some ⟨true, none⟩ ∧
    (SignalObserver.new 0 "n" none loneRegistry).1 = Outcome.assertFailed :=
  have h := mint_stores_any_callable loneRegistry 0 "n" none (by decide) (by decide)
  ⟨by decide, by decide, h.2.2.1, h.2.2.2.2.1⟩

/-! ## Resetting a handle -/

theorem callsOf_eq_nil (a : Addr) (calls : List Call) (h : ∀ c ∈ calls, c.observer ≠ a) :
    callsOf a calls = [] := by
  unfold callsOf
  rw [List.filter_eq_nil_iff]
  intro c hc hco
  simp only [decide_eq_true_eq] at hco
  exact h c hc hco

theorem destroySignal_expired (w : World) (a : Addr) :
    (w.destroySignal a).signalExpired a = true := by
  unfold World.destroySignal World.signalExpired
  simp only [List.getElem?_modify]
  cases w.signals[a]? <;> simp

theorem destroySignal_signalExpired_of_ne (w : World) (a b : Addr) (h : a ≠ b) :
    (w.destroySignal a).signalExpired b = w.signalExpired b := by
  unfold World.destroySignal World.signalExpired
  simp only [List.getElem?_modify]
  simp [h]

theorem destroyObserver_lockObserver_of_ne (w : World) (a b : Addr) (h : a ≠ b) :
    (w.destroyObserver a).lockObserver b = w.lockObserver b := by
  unfold World.destroyObserver World.lockObserver
  simp only [List.getElem?_modify]
  simp [h]

/-- C12: in a reachable state, `resetSignal` on a handle that owns the live signal `S`
leaves the handle with a new live `Signal_` whose observer set is empty, the old one being
destroyed, so `emit` on the handle calls nothing and changes nothing; and `resetObserver`
with the callable `f` on a handle that owns the live observer `O` leaves the handle with a
new live `SignalObserver_` that stores `f`, the old one being destroyed, and then `emit` on
any signal `E` ends normally with no call to the old observer and none to the new one. -/
theorem reset_orphans_connections (w : World) (hw : Reachable w) (t : Nat) (name : String)
    (S O E : Addr) (f : Nat) (x : Int)
    (hS : w.signalExpired S = false) (hO : w.observerExpired O = false) :
    ((Signal.resetSignal ⟨some S⟩ t name w).1 = ⟨some w.signals.length⟩ ∧
     (Signal.resetSignal ⟨some S⟩ t name w).2.signalExpired w.signals.length = false ∧
     (Signal.resetSignal ⟨some S⟩ t name w).2.signalExpired S = true ∧
     (Signal.resetSignal ⟨some S⟩ t name w).2.observersOf w.signals.length = [] ∧
     (Signal.resetSignal ⟨some S⟩ t name w).1.emit x (Signal.resetSignal ⟨some S⟩ t name w).2
       = (Outcome.ok, (Signal.resetSignal ⟨some S⟩ t name w).2)) ∧
    ((SignalObserver.resetObserver ⟨some O⟩ t name (some f) w).1 = Outcome.ok ∧
     (SignalObserver.resetObserver ⟨some O⟩ t name (some f) w).2.1
       = ⟨some w.observers.length⟩ ∧
     (SignalObserver.resetObserver ⟨some O⟩ t name (some f) w).2.2.lockObserver
       w.observers.length = some ⟨true, some f⟩ ∧
     (SignalObserver.resetObserver ⟨some O⟩ t name (some f) w).2.2.observerExpired O = true ∧
     (Signal_.emit E x (SignalObserver.resetObserver ⟨some O⟩ t name (some f) w).2.2).1
       = Outcome.ok ∧
     ∃ calls : List Call,
       (Signal_.emit E x (SignalObserver.resetObserver ⟨some O⟩ t name (some f) w).2.2).2.log
         = (SignalObserver.resetObserver ⟨some O⟩ t name (some f) w).2.2.log ++ calls ∧
       callsOf O calls = [] ∧ callsOf w.observers.length calls = []) := by
  have hi := reachable_inv hw
  have hSlt := signalExpired_lt w S hS
  have hOlt := observerExpired_lt w O hO
  constructor
  · have hw2 : (Signal.resetSignal ⟨some S⟩ t name w).2
        = (declareSignal t name w).2.destroySignal S := rfl
    have hempty : (Signal.resetSignal ⟨some S⟩ t name w).2.observersOf w.signals.length = [] := by
      rw [hw2, destroySignal_observersOf, declareSignal_observersOf]
      exact observersOf_of_ge w _ (Nat.le_refl _)
    refine ⟨rfl, ?_, ?_, hempty, ?_⟩
    · rw [hw2, destroySignal_signalExpired_of_ne _ _ _ (Nat.ne_of_lt hSlt)]
      unfold World.signalExpired
      rw [declareSignal_signals]
      simp
    · rw [hw2]
      exact destroySignal_expired _ S
    · exact emit_of_empty _ _ x hempty
  · have hw2 : (SignalObserver.resetObserver ⟨some O⟩ t name (some f) w).2.2
        = (declareSignalObserver t name (some f) w).2.destroyObserver O := rfl
    have hi2 : Inv (SignalObserver.resetObserver ⟨some O⟩ t name (some f) w).2.2 :=
      inv_resetObserver hi _ t name _
    have hexp : (SignalObserver.resetObserver ⟨some O⟩ t name (some f) w).2.2.observerExpired O
        = true := by
      rw [hw2]
      exact destroyObserver_expired _ O
    obtain ⟨calls, h1, h2⟩ :=
      emit_log (SignalObserver.resetObserver ⟨some O⟩ t name (some f) w).2.2 E x
    refine ⟨rfl, rfl, ?_, hexp, ?_, calls, h1, ?_, ?_⟩
    · rw [hw2, destroyObserver_lockObserver_of_ne _ _ _ (Nat.ne_of_lt hOlt)]
      unfold World.lockObserver
      rw [declareSignalObserver_observers]
      simp
    · rw [emit_eq _ hi2.callable]
    · apply callsOf_eq_nil
      intro c hc hco
      have := (h2 c hc).2.1
      rw [hco, hexp] at this
      cases this
    · apply callsOf_eq_nil
      intro c hc hco
      have hm := (h2 c hc).1
      rw [hco] at hm
      exact Nat.lt_irrefl _ (hi.bounded E _ hm)

/-- C12, on the state of cases 5 and 6 of `main`: the hypotheses hold; after
`resetObserver` the connected signal ends `emit` normally, and after `resetSignal` the
handle's `emit` changes nothing. -/
theorem reset_orphans_connections_witness :
    Reachable (run connectedPair World.empty) ∧
    (run connectedPair World.empty).signalExpired 0 = false ∧
    (run connectedPair World.empty).observerExpired 0 = false ∧
    (0 : Addr) ∈ (run connectedPair World.empty).observersOf 0 ∧
    (Signal.resetSignal ⟨some 0⟩ 0 "again" (run connectedPair World.empty)).1.emit 6
        (Signal.resetSignal ⟨some 0⟩ 0 "again" (run connectedPair World.empty)).2
      = (Outcome.ok, (Signal.resetSignal ⟨some 0⟩ 0 "again" (run connectedPair World.empty)).2) ∧
    (Signal_.emit 0 6 (SignalObserver.resetObserver ⟨some 0⟩ 1 "again" (some 9)
        (run connectedPair World.empty)).2.2).1 = Outcome.ok :=
  have h := reset_orphans_connections (run connectedPair World.empty) ⟨connectedPair, rfl⟩
    0 "again" 0 0 0 9 6 (by decide) (by decide)
  have h2 := reset_orphans_connections (run connectedPair World.empty) ⟨connectedPair, rfl⟩
    1 "again" 0 0 0 9 6 (by decide) (by decide)
  ⟨⟨connectedPair, rfl⟩, by decide, by decide, by decide, h.1.2.2.2.2, h2.2.2.2.2.2.1⟩

/-! ## Connecting through the handles -/

theorem direct_connect_eq (w : World) (E U : Addr) (hU : w.observerExpired U = false) :
    SignalObserver.connect ⟨some U⟩ ⟨some E⟩ w
      = (Outcome.ok, w.setObserversOf E (setInsert U (w.observersOf E))) := by
  simp [SignalObserver.connect, Signal.registerObserver, Signal_.registerObserver, hU]

/-- C13: for handles that own the live observer `U` and the live signal `E`,
`SignalObserver::connect` ends normally, returns the registries as they were and gives the
same result whatever the registries hold; the signal is left with the very heap of signals
that a name-based `connect` resolving to `E` and `U` leaves; and a following `emit(x)` on
the signal handle calls the observer's stored function exactly once, with `x`. -/
theorem direct_connect_matches_named_connect (w : World) (hw : Reachable w) (E U : Addr)
    (x : Int) (hE : w.signalExpired E = false) (hU : w.observerExpired U = false) :
    (SignalObserver.connect ⟨some U⟩ ⟨some E⟩ w).1 = Outcome.ok ∧
    (SignalObserver.connect ⟨some U⟩ ⟨some E⟩ w).2.trackers = w.trackers ∧
    (∀ ts : List SignalTracker,
      SignalObserver.connect ⟨some U⟩ ⟨some E⟩ { w with trackers := ts }
        = (Outcome.ok,
            { (SignalObserver.connect ⟨some U⟩ ⟨some E⟩ w).2 with trackers := ts })) ∧
    (SignalObserver.connect ⟨some U⟩ ⟨some E⟩ w).2.observersOf E
      = setInsert U (w.observersOf E) ∧
    (∀ (R O : Nat) (s o : String),
      mapAt s (w.tracker O).mSignals = some E → mapAt o (w.tracker R).mObservers = some U →
      (connect R s o O w).1 = Outcome.ok ∧
      (connect R s o O w).2.signals = (SignalObserver.connect ⟨some U⟩ ⟨some E⟩ w).2.signals ∧
      (connect R s o O w).2.observersOf E
        = (SignalObserver.connect ⟨some U⟩ ⟨some E⟩ w).2.observersOf E) ∧
    ∃ (c : SignalObserver_) (f : Nat) (calls : List Call),
      w.lockObserver U = some c ∧ c.mStoredFunction = some f ∧
      (Signal.emit ⟨some E⟩ x (SignalObserver.connect ⟨some U⟩ ⟨some E⟩ w).2).1
        = Outcome.ok ∧
      (Signal.emit ⟨some E⟩ x (SignalObserver.connect ⟨some U⟩ ⟨some E⟩ w).2).2.log
        = (SignalObserver.connect ⟨some U⟩ ⟨some E⟩ w).2.log ++ calls ∧
      callsOf U calls = [⟨U, f, x⟩] := by
  have hi := reachable_inv hw
  have hd := direct_connect_eq w E U hU
  have hobs : (SignalObserver.connect ⟨some U⟩ ⟨some E⟩ w).2.observersOf E
      = setInsert U (w.observersOf E) := by
    rw [hd]
    simp [setObserversOf_observersOf, signalExpired_lt w E hE]
  refine ⟨by rw [hd], by rw [hd]; rfl, ?_, hobs, ?_, ?_⟩
  · intro ts
    have hU2 : World.observerExpired { w with trackers := ts } U = false := hU
    rw [direct_connect_eq _ E U hU2, hd]
    rfl
  · intro R O s o hs ho
    rw [connect_ok w R O s o E U hs hE ho hU, hd]
    exact ⟨rfl, rfl, rfl⟩
  · have hi2 : Inv (SignalObserver.connect ⟨some U⟩ ⟨some E⟩ w).2 := by
      rw [hd]
      have := inv_registerObserver hi E U
      simpa [Signal_.registerObserver, hU] using this
    have hmem : U ∈ (SignalObserver.connect ⟨some U⟩ ⟨some E⟩ w).2.observersOf E := by
      rw [hobs]; exact (mem_setInsert U U _).2 (Or.inl rfl)
    have hexp : (SignalObserver.connect ⟨some U⟩ ⟨some E⟩ w).2.observerExpired U = false := by
      rw [hd]; simpa using hU
    obtain ⟨c, f, calls, h1, h2, h3, h4, h5⟩ := emit_member_once _ hi2 E x U hmem hexp
    refine ⟨c, f, calls, ?_, h2, ?_, h4, h5⟩
    · rw [hd] at h1
      simpa using h1
    · show (Signal_.emit E x _).1 = Outcome.ok
      rw [h3]

/-- C13, on the state of case 7 of `main` before the handles are connected: the hypotheses
hold, the direct `connect` ends normally and leaves the registries alone. -/
theorem direct_connect_matches_named_connect_witness :
    Reachable (run oneOfEach World.empty) ∧
    (run oneOfEach World.empty).signalExpired 0 = false ∧
    (run oneOfEach World.empty).observerExpired 0 = false ∧
    (SignalObserver.connect ⟨some 0⟩ ⟨some 0⟩ (run oneOfEach World.empty)).1 = Outcome.ok ∧
    (SignalObserver.connect ⟨some 0⟩ ⟨some 0⟩ (run oneOfEach World.empty)).2.trackers
      = (run oneOfEach World.empty).trackers :=
  have h := direct_connect_matches_named_connect (run oneOfEach World.empty)
    ⟨oneOfEach, rfl⟩ 0 0 7 (by decide) (by decide)
  ⟨⟨oneOfEach, rfl⟩, by decide, by decide, h.1, h.2.1⟩

/-! ## `garbageCollection` prunes and nothing more -/

theorem garbageCollection_tracker_eq (w : World) (t t2 : Nat) :
    (garbageCollection t w).tracker t2 =
      if t2 = t ∧ t < w.trackers.length then
        { mSignals := sweep w.signalExpired (w.tracker t).mSignals
          mObservers := sweep w.observerExpired (w.tracker t).mObservers }
      else w.tracker t2 := by
  unfold garbageCollection World.tracker
  exact getD_set _ _ _ _ _

theorem tracker_of_ge (w : World) (t : Nat) (h : ¬ t < w.trackers.length) :
    w.tracker t = ⟨[], []⟩ := by
  unfold World.tracker
  rw [List.getD_eq_getElem?_getD, List.getElem?_eq_none (Nat.le_of_not_lt h)]
  rfl

theorem sweep_of_all_live (isExpired : Addr → Bool) (m : List (String × Addr))
    (h : ∀ p ∈ m, isExpired p.2 = false) : sweep isExpired m = m := by
  have he : expiredKeys isExpired m = [] := by
    unfold expiredKeys
    rw [List.map_eq_nil_iff, List.filter_eq_nil_iff]
    intro p hp
    simp [h p hp]
  unfold sweep
  rw [he]
  rfl

theorem set_getD_self (ts : List SignalTracker) (t : Nat) (d : SignalTracker) :
    ts.set t (ts.getD t d) = ts := by
  apply List.ext_getElem?
  intro i
  rw [List.getElem?_set]
  by_cases h : t = i
  · subst h
    by_cases hl : t < ts.length
    · simp [hl, List.getD_eq_getElem?_getD, List.getElem?_eq_getElem hl]
    · simp [hl, List.getElem?_eq_none (Nat.le_of_not_lt hl)]
  · simp [h]

theorem garbageCollection_of_all_live (w : World) (t : Nat)
    (hs : ∀ p ∈ (w.tracker t).mSignals, w.signalExpired p.2 = false)
    (ho : ∀ p ∈ (w.tracker t).mObservers, w.observerExpired p.2 = false) :
    garbageCollection t w = w := by
  have h1 := sweep_of_all_live w.signalExpired _ hs
  have h2 := sweep_of_all_live w.observerExpired _ ho
  unfold sweep at h1 h2
  unfold garbageCollection
  simp only [h1, h2]
  unfold World.tracker
  rw [set_getD_self]

/-- C14: in every state whose maps hold each key once, as every `std::unordered_map` does,
`garbageCollection` on a registry leaves in each of its two maps exactly the entries whose
endpoint is not expired, in their order and with their targets; it changes no other registry, no endpoint, no observer set and not the call log;
and running it a second time changes nothing. -/
theorem garbageCollection_prunes_exactly (w : World) (hu : UniqueKeys w) (t : Nat) :
    ((garbageCollection t w).tracker t).mSignals
      = (w.tracker t).mSignals.filter (fun p => !w.signalExpired p.2) ∧
    ((garbageCollection t w).tracker t).mObservers
      = (w.tracker t).mObservers.filter (fun p => !w.observerExpired p.2) ∧
    (∀ t2 : Nat, t2 ≠ t → (garbageCollection t w).tracker t2 = w.tracker t2) ∧
    (garbageCollection t w).trackers.length = w.trackers.length ∧
    (garbageCollection t w).signals = w.signals ∧
    (garbageCollection t w).observers = w.observers ∧
    (garbageCollection t w).log = w.log ∧
    garbageCollection t (garbageCollection t w) = garbageCollection t w := by
  have hsig : ((garbageCollection t w).tracker t).mSignals
      = (w.tracker t).mSignals.filter (fun p => !w.signalExpired p.2) := by
    rw [garbageCollection_tracker_eq]
    split_ifs with h
    · exact sweep_eq_filter _ _ (hu.signals t)
    · have ht : ¬ t < w.trackers.length := fun hl => h ⟨rfl, hl⟩
      rw [tracker_of_ge w t ht]
      rfl
  have hobs : ((garbageCollection t w).tracker t).mObservers
      = (w.tracker t).mObservers.filter (fun p => !w.observerExpired p.2) := by
    rw [garbageCollection_tracker_eq]
    split_ifs with h
    · exact sweep_eq_filter _ _ (hu.observers t)
    · have ht : ¬ t < w.trackers.length := fun hl => h ⟨rfl, hl⟩
      rw [tracker_of_ge w t ht]
      rfl
  refine ⟨hsig, hobs, ?_, ?_, rfl, rfl, rfl, ?_⟩
  · intro t2 h2
    rw [garbageCollection_tracker_eq]
    simp [h2]
  · simp [garbageCollection]
  · apply garbageCollection_of_all_live
    · intro p hp
      rw [hsig, List.mem_filter] at hp
      rw [garbageCollection_signalExpired]
      simpa using hp.2
    · intro p hp
      rw [hobs, List.mem_filter] at hp
      rw [garbageCollection_observerExpired]
      simpa using hp.2

/-- C14, on a registry whose two entries are expired: the hypothesis holds, both entries go,
and the second run of `garbageCollection` changes nothing. -/
theorem garbageCollection_prunes_exactly_witness :
    UniqueKeys deadEntries ∧
    ((garbageCollection 0 deadEntries).tracker 0).mSignals = [] ∧
    ((garbageCollection 0 deadEntries).tracker 0).mObservers = [] ∧
    garbageCollection 0 (garbageCollection 0 deadEntries) = garbageCollection 0 deadEntries :=
  have hu : UniqueKeys deadEntries := reachable_uniqueKeys ⟨_, rfl⟩
  have h := garbageCollection_prunes_exactly deadEntries hu 0
  ⟨hu, by decide, by decide, h.2.2.2.2.2.2.2⟩

/-! ## What `emit` leaves behind -/

/-- C15: in a reachable state, `emit` ends normally; its first loop runs over the whole
observer set as it was before the call, calling every live member and collecting the
expired ones; afterwards the signal's observer set is the old one without the expired
references, every live reference kept in place; other signals' sets, the endpoints and
every registry are unchanged. -/
theorem emit_purges_expired_only (w : World) (hw : Reachable w) (sig : Addr) (x : Int) :
    (Signal_.emit sig x w).1 = Outcome.ok ∧
    emitLoop w x (w.observersOf sig) [] []
      = (Outcome.ok, liveCalls w x (w.observersOf sig),
          (w.observersOf sig).filter w.observerExpired) ∧
    (Signal_.emit sig x w).2.observersOf sig
      = (w.observersOf sig).filter (fun a => !w.observerExpired a) ∧
    (∀ a : Addr, a ∈ (Signal_.emit sig x w).2.observersOf sig ↔
      a ∈ w.observersOf sig ∧ w.observerExpired a = false) ∧
    (∀ sig2 : Addr, sig2 ≠ sig →
      (Signal_.emit sig x w).2.observersOf sig2 = w.observersOf sig2) ∧
    (Signal_.emit sig x w).2.trackers = w.trackers ∧
    (Signal_.emit sig x w).2.observers = w.observers ∧
    (∀ a : Addr, (Signal_.emit sig x w).2.signalExpired a = w.signalExpired a) := by
  have hi := reachable_inv hw
  have hobs : (Signal_.emit sig x w).2.observersOf sig
      = (w.observersOf sig).filter (fun a => !w.observerExpired a) := by
    rw [emit_eq w hi.callable, setObserversOf_observersOf]
    split_ifs with h
    · rfl
    · have hl : ¬ sig < w.signals.length := fun hl => h ⟨rfl, hl⟩
      have : w.observersOf sig = [] := observersOf_of_ge w sig (Nat.le_of_not_lt hl)
      show w.observersOf sig = _
      rw [this]
      rfl
  refine ⟨by rw [emit_eq w hi.callable], ?_, hobs, ?_, ?_, emit_trackers w sig x,
    emit_observers w sig x, ?_⟩
  · rw [emitLoop_eq w hi.callable]
    simp
  · intro a
    rw [hobs, List.mem_filter]
    simp
  · intro sig2 h2
    rw [emit_eq w hi.callable, setObserversOf_observersOf]
    simp [h2]
    rfl
  · intro a
    rw [emit_eq w hi.callable, setObserversOf_signalExpired]
    rfl

/-- C15, on the state of case 2 of `main`: the signal's observer set holds one expired
reference before `emit(2)` and is empty after it. -/
theorem emit_purges_expired_only_witness :
    Reachable (run staleObserver World.empty) ∧
    (run staleObserver World.empty).observersOf 0 = [0] ∧
    (run staleObserver World.empty).observerExpired 0 = true ∧
    (Signal_.emit 0 2 (run staleObserver World.empty)).2.observersOf 0 = [] :=
  have h := emit_purges_expired_only (run staleObserver World.empty) ⟨staleObserver, rfl⟩ 0 2
  ⟨⟨staleObserver, rfl⟩, by decide, by decide, by rw [h.2.2.1]; decide⟩

end ObserverPattern
